import Mathlib

/-!
# Verification of `generate_fixtures.py` (web-pptx fixture corpus generator)

A shallow embedding of `src/packages/@oxen-converters/ppt-to-pptx/scripts/generate_fixtures.py`.

The script orchestrates external processes (LibreOffice `soffice`, `pdftoppm`) and the
filesystem.  We embed:

* filename glob matching (the subset of Python `glob`/`fnmatch` semantics the script can
  exercise: `*` and `?` wildcards plus the hidden-file rule; the script never builds a
  pattern containing a `[` character class, and all theorems that depend on glob
  behaviour hypothesise that the interpolated fragments are free of wildcard characters),
* `os.path.basename` / `os.path.splitext`,
* Python's stable `sorted` (as a stable insertion sort),
* the output-file resolution logic of `soffice_convert`,
* a filesystem model (association list from path strings to file nodes) together with an
  event trace, over which `render_to_pngs` and `main` are embedded; external tools are
  oracles (an `Env`) supplying exit codes, captured streams, and the files they create.
-/

namespace WebPptx

/-! ## Characters and glob matching -/

/-- Characters that are special to Python `glob`/`fnmatch` patterns. -/
def isMagicChar (c : Char) : Bool := c = '*' || c = '?' || c = '['

/-- A string that contains no glob wildcard characters (matched literally by `fnmatch`). -/
def globLiteral (s : String) : Bool := s.toList.all (fun c => !isMagicChar c)

/-- All suffixes of a character list, longest first (including the list itself and `[]`). -/
def suffixesOf : List Char → List (List Char)
  | [] => [[]]
  | c :: cs => (c :: cs) :: suffixesOf cs

/-- `fnmatch`-style matching of a pattern against a name.  `*` matches any (possibly
empty) sequence of characters, `?` matches exactly one character, and any other pattern
character matches itself.  (`[` character classes are not modelled; no pattern built by
the script contains `[` and the theorems hypothesise wildcard-free interpolations.) -/
def fnmatchChars : List Char → List Char → Bool
  | [], name => name.isEmpty
  | p :: ps, name =>
    if p = '*' then (suffixesOf name).any (fun t => fnmatchChars ps t)
    else
      match name with
      | [] => false
      | c :: cs => if p = '?' then fnmatchChars ps cs else p = c && fnmatchChars ps cs

/-- A name hidden in the Unix sense (leading dot). -/
def isHiddenChars (cs : List Char) : Bool :=
  match cs with
  | '.' :: _ => true
  | _ => false

/-- Python `glob` matching of a single path component: `fnmatch` semantics plus the rule
that a hidden name (leading `.`) is matched only by a pattern that itself starts with
`.`. -/
def globMatch (pat name : String) : Bool :=
  (!isHiddenChars name.toList || isHiddenChars pat.toList) && fnmatchChars pat.toList name.toList

/-! ## Path helpers (`os.path` on POSIX) -/

/-- `os.path.basename`: the part of the path after the last `/` (the whole string when
there is no `/`). -/
def pyBasename (p : String) : String :=
  String.mk ((p.toList.reverse.takeWhile (fun c => c ≠ '/')).reverse)

/-- The root part of `os.path.splitext` applied to a bare file name: strip the suffix
starting at the last `.`, provided at least one non-dot character precedes that dot
(so `.bashrc` keeps its name). -/
def splitextRoot (name : String) : String :=
  let cs := name.toList
  let ext := cs.reverse.takeWhile (fun c => c ≠ '.')
  if ext.length = cs.length then
    name
  else
    let pre := (cs.reverse.drop (ext.length + 1)).reverse
    if pre.any (fun c => c ≠ '.') then String.mk pre else name

/-- `dir ++ "/" ++ name`: `os.path.join` for the always-relative joins the script does. -/
def childPath (dir name : String) : String := dir ++ "/" ++ name

/-- Does the string contain no `/` (i.e. is it a single path component)? -/
def slashFree (s : String) : Bool := s.toList.all (fun c => c ≠ '/')

/-- Is `pre` a prefix of `p` (on code points)? -/
def strHasPrefix (pre p : String) : Bool := pre.toList.isPrefixOf p.toList

/-- Split a path at its last `/` into (directory, base name); `none` when it has no `/`. -/
def splitPath (p : String) : Option (String × String) :=
  let r := p.toList.reverse
  let base := r.takeWhile (fun c => c ≠ '/')
  if base.length = r.length then
    none
  else
    some (String.mk ((r.drop (base.length + 1)).reverse), String.mk base.reverse)

/-! ## Python's stable `sorted` -/

/-- Insert `a` into `l` keeping every element `b` with `lt b a` before `a`; used from
`stableSort` this reproduces the placement of Python's stable `sorted` (an element keeps
its original relative position among order-equivalent elements). -/
def insStable (lt : α → α → Bool) (a : α) : List α → List α
  | [] => [a]
  | b :: bs => if lt b a then b :: insStable lt a bs else a :: b :: bs

/-- Stable sort by the strict comparator `lt` (Python `sorted`). -/
def stableSort (lt : α → α → Bool) (l : List α) : List α :=
  l.foldr (insStable lt) []

/-- Strict code-point lexicographic order on character lists (Python `str` `<`). -/
def charsLt : List Char → List Char → Bool
  | [], [] => false
  | [], _ :: _ => true
  | _ :: _, [] => false
  | a :: as, b :: bs => if a < b then true else if b < a then false else charsLt as bs

/-- Strict lexicographic order on strings (Python `str` `<`). -/
def strLt (a b : String) : Bool := charsLt a.toList b.toList

/-! ## Data model: presentation, case registry, metadata, manifest -/

/-- EMU (English Metric Units) per inch, as in `pptx.util`. -/
def emuPerInch : Nat := 914400

/-- `pptx.util.Inches`: a length of `x` inches stored as `int(x * 914400)` EMU.  The
Python float literals the script passes are read as exact decimal rationals. -/
def Inches (x : ℚ) : ℤ := Int.floor (x * emuPerInch)

/-- The slice of `pptx.Presentation` state the script sets: the slide page size. -/
structure Prs where
  slide_width : ℤ
  slide_height : ℤ
deriving DecidableEq, Repr

/-- `new_prs`: a fresh presentation with `slide_width = Inches(13.333)` (the source
comments `# 16:9`) and `slide_height = Inches(7.5)`. -/
def new_prs : Prs :=
  { slide_width := Inches (13333 / 1000), slide_height := Inches (15 / 2) }

/-- The builder callback of a case.  The builders mutate the document model through the
external authoring library, which the verification treats as an opaque collaborator;
each case's callback is represented by its tag. -/
inductive BuilderKind where
  | blank | text_basic | bullets | shapes | line_styles | images
  | crop_rotate | table_basic | chart_bar | hyperlink | multislide
deriving DecidableEq, Repr

/-- `CaseSpec` (the script's dataclass). -/
structure CaseSpec where
  id : String
  title : String
  description : String
  tags : List String
  slides : Nat
  level : String
  build : BuilderKind
deriving DecidableEq, Repr

/-- The case registry `cases(png_path, jpg_path)`: the fixed ordered list of `CaseSpec`
values.  The two asset paths are captured only by the builder closures (modelled as
tags); no other field mentions them. -/
def cases (pngPath jpgPath : String) : List CaseSpec :=
  let _ := pngPath
  let _ := jpgPath
  [ ⟨"000_blank", "Blank baseline",
      "Single blank slide with background fill and centered text.",
      ["slide", "background", "text"], 1, "core", .blank⟩,
    ⟨"010_text_basic", "Text basic",
      "Rich text runs: bold/italic/underline, colors, mixed font sizes, Japanese + emoji.",
      ["text", "runs", "unicode"], 1, "core", .text_basic⟩,
    ⟨"011_text_bullets", "Text bullets",
      "Bulleted list with multiple nesting levels.",
      ["text", "bullets"], 1, "core", .bullets⟩,
    ⟨"020_shapes_basic", "Shapes basic",
      "Rectangle/oval with fills and lines.",
      ["shapes", "fill", "line"], 1, "core", .shapes⟩,
    ⟨"021_line_styles", "Line styles",
      "Straight connectors with solid/dash/round-dot styles.",
      ["lines", "dash"], 1, "extended", .line_styles⟩,
    ⟨"030_images_basic", "Images basic",
      "PNG and JPG pictures placed/scaled.",
      ["images"], 1, "core", .images⟩,
    ⟨"031_images_crop_rotate", "Images crop & rotate",
      "Picture crop and rotation.",
      ["images", "crop", "rotation"], 1, "extended", .crop_rotate⟩,
    ⟨"040_table_basic", "Table basic",
      "Simple table.",
      ["table"], 1, "extended", .table_basic⟩,
    ⟨"050_chart_bar", "Chart bar",
      "Clustered column chart.",
      ["chart"], 1, "hard", .chart_bar⟩,
    ⟨"060_hyperlink", "Hyperlink",
      "Text run hyperlink.",
      ["hyperlink"], 1, "extended", .hyperlink⟩,
    ⟨"080_multislide", "Multi-slide",
      "Two slides.",
      ["slides"], 2, "core", .multislide⟩ ]

/-- One entry of the manifest's `cases` list: exactly the non-builder fields of a
`CaseSpec` (the dict built at lines 359-366 of the script). -/
structure CaseSummary where
  id : String
  title : String
  description : String
  tags : List String
  slides : Nat
  level : String
deriving DecidableEq, Repr

/-- The manifest entry for one case. -/
def CaseSpec.summary (c : CaseSpec) : CaseSummary :=
  ⟨c.id, c.title, c.description, c.tags, c.slides, c.level⟩

/-- The per-case `meta.json` record (lines 310-318). -/
structure MetaRecord where
  id : String
  title : String
  description : String
  tags : List String
  slides : Nat
  level : String
  generated_at : String
deriving DecidableEq, Repr

/-- The `slide_size` block of the manifest (dimensions as exact decimal rationals). -/
structure SlideSize where
  width_in : ℚ
  height_in : ℚ
  pixel_at_72dpi : Nat × Nat
deriving DecidableEq, Repr

/-- The manifest document (lines 354-369). -/
structure Manifest where
  generated_at : String
  slide_size : SlideSize
  render_pipeline : List String
  cases : List CaseSummary
deriving DecidableEq, Repr

/-- Build the manifest for a timestamp and the registry list (lines 354-369). -/
def mkManifest (now : String) (specs : List CaseSpec) : Manifest :=
  { generated_at := now ++ "Z",
    slide_size := ⟨13333 / 1000, 15 / 2, (960, 540)⟩,
    render_pipeline := ["libreoffice:convert-to pdf", "pdftoppm -png -r 72"],
    cases := specs.map CaseSpec.summary }

/-! ## Filesystem model

The filesystem is an association list from absolute path strings to file nodes.  A node
records opaque binary content (an identifier chosen by the external-tool oracle) or a
structured record written by the script, plus a modification time (relevant only to the
fallback resolution in `soffice_convert`). -/

/-- Content of a file. -/
inductive FileData where
  /-- opaque binary content, identified by a tag from the environment -/
  | bin (id : Nat)
  /-- a serialized `meta.json` record -/
  | metaFile (m : MetaRecord)
  /-- the serialized manifest -/
  | manifestFile (m : Manifest)
deriving DecidableEq, Repr

/-- A file node: content plus modification time. -/
structure FNode where
  data : FileData
  mtime : Nat
deriving DecidableEq, Repr

/-- A directory entry as seen by `glob`: base name and node. -/
structure DirEntry where
  name : String
  node : FNode
deriving DecidableEq, Repr

/-- The filesystem: path ↦ node, first binding wins. -/
abbrev FS := List (String × FNode)

/-- Look up a path. -/
def fsGet (fs : FS) (p : String) : Option FNode :=
  match fs.find? (fun e => e.1 = p) with
  | some e => some e.2
  | none => none

/-- Keep only the paths satisfying `keep`. -/
def fsFilterP (fs : FS) (keep : String → Bool) : FS :=
  fs.filter (fun e => keep e.1)

/-- `os.remove` (no error when absent; call sites guard with `os.path.exists`). -/
def fsRemove (fs : FS) (p : String) : FS := fsFilterP fs (fun q => q ≠ p)

/-- Write (create or overwrite) a file. -/
def fsWrite (fs : FS) (p : String) (d : FNode) : FS := (p, d) :: fsRemove fs p

/-- `os.path.exists` restricted to files (directories are implicit in this model). -/
def fsExists (fs : FS) (p : String) : Bool := (fsGet fs p).isSome

/-- `shutil.move` / `os.replace` of a file onto a (possibly existing) target file. -/
def fsMove (fs : FS) (src dst : String) : FS :=
  match fsGet fs src with
  | some d => fsWrite (fsRemove fs src) dst d
  | none => fs

/-- `shutil.rmtree`: drop every file under the directory. -/
def fsRmtree (fs : FS) (dir : String) : FS :=
  fsFilterP fs (fun p => !strHasPrefix (dir ++ "/") p)

/-- The files directly inside `dir` (what `glob` enumerates), in filesystem order. -/
def dirEntries (fs : FS) (dir : String) : List DirEntry :=
  fs.filterMap (fun e =>
    match splitPath e.1 with
    | some (d, n) => if d = dir then some ⟨n, e.2⟩ else none
    | none => none)

/-- `glob.glob(os.path.join(dir, pat))` for a wildcard-free directory part. -/
def globDir (fs : FS) (dir pat : String) : List DirEntry :=
  (dirEntries fs dir).filter (fun e => globMatch pat e.name)

/-- Delete every file of `dir` whose name matches `pat` (the script's
`for f in glob.glob(...): os.remove(f)` loops). -/
def fsRemoveGlob (fs : FS) (dir pat : String) : FS :=
  fsFilterP fs (fun p =>
    match splitPath p with
    | some (d, n) => !(d = dir && globMatch pat n)
    | none => true)

/-! ## `soffice_convert` -/

/-- Captured result of `subprocess.run`: exit code and both streams. -/
structure RunResult where
  rc : Int
  stdout : String
  stderr : String
deriving DecidableEq, Repr

/-- `LO_PROFILE` (line 32). -/
def LO_PROFILE : String := "/tmp/lo-profile-webpptx-fixtures"

/-- The exact `soffice` command the script invokes (lines 42-52). -/
def sofficeCmd (inputPath outdir outExt : String) : List String :=
  ["soffice", "-env:UserInstallation=file://" ++ LO_PROFILE, "--headless", "--nologo",
   "--convert-to", outExt, "--outdir", outdir, inputPath]

/-- The two failures `soffice_convert` can raise: the `RuntimeError` for a nonzero exit
(line 55) and the `FileNotFoundError` when no output candidate is found (line 63). -/
inductive ConvError where
  | nonzeroExit (rc : Int) (stdout stderr : String) (cmd : List String)
  | outputMissing (inputPath outExt outdir : String)
deriving DecidableEq, Repr

/-- Sort comparator for the fallback candidates: `sorted(key=os.path.getmtime,
reverse=True)` puts `a` strictly before `b` iff `a` is more recently modified. -/
def mtimeDesc (a b : DirEntry) : Bool := b.node.mtime < a.node.mtime

/-- Output resolution of `soffice_convert` (lines 56-62): return the first exact
`<basename>.<ext>` glob candidate if any (`if candidates: return candidates[0]`), else
the head of the `*.<ext>` glob sorted by modification time, newest first
(`if cand2: return cand2[0]`), else nothing. -/
def sofficeResolve (inputPath outExt : String) (entries : List DirEntry) :
    Option DirEntry :=
  let base := splitextRoot (pyBasename inputPath)
  let candidates := entries.filter (fun e => globMatch (base ++ "." ++ outExt) e.name)
  let cand2 := stableSort mtimeDesc
    (entries.filter (fun e => globMatch ("*." ++ outExt) e.name))
  candidates.head?.orElse (fun _ => cand2.head?)

/-- `soffice_convert` (lines 40-63) given the invocation's captured result and the
output directory's listing after the invocation: nonzero exit raises the diagnostic
`RuntimeError`; otherwise the output file is resolved, and its absence is the distinct
`FileNotFoundError`. -/
def sofficeConvert (inputPath outdir outExt : String) (res : RunResult)
    (entries : List DirEntry) : Except ConvError String :=
  if res.rc ≠ 0 then
    .error (.nonzeroExit res.rc res.stdout res.stderr (sofficeCmd inputPath outdir outExt))
  else
    match sofficeResolve inputPath outExt entries with
    | some e => .ok (childPath outdir e.name)
    | none => .error (.outputMissing inputPath outExt outdir)

/-! ## Decimal formatting (`f"{idx:03d}"`) -/

/-- The character for a decimal digit. -/
def digitChar (d : Nat) : Char :=
  if d = 0 then '0' else if d = 1 then '1' else if d = 2 then '2' else if d = 3 then '3'
  else if d = 4 then '4' else if d = 5 then '5' else if d = 6 then '6'
  else if d = 7 then '7' else if d = 8 then '8' else '9'

/-- The value of a decimal digit character. -/
def digitVal (c : Char) : Nat :=
  if c = '0' then 0 else if c = '1' then 1 else if c = '2' then 2 else if c = '3' then 3
  else if c = '4' then 4 else if c = '5' then 5 else if c = '6' then 6
  else if c = '7' then 7 else if c = '8' then 8 else 9

/-- Little-endian decimal digits of `n`, with explicit fuel (`fuel ≥ n` suffices). -/
def decDigitsAux : Nat → Nat → List Nat
  | _, 0 => []
  | 0, _ + 1 => []
  | fuel + 1, n + 1 => (n + 1) % 10 :: decDigitsAux fuel ((n + 1) / 10)

/-- Big-endian decimal digit characters of a positive `n` (empty for `0`). -/
def decChars (n : Nat) : List Char := ((decDigitsAux n n).map digitChar).reverse

/-- Python `f"{n:03d}"`: decimal digits of `n` left-padded with `'0'` to width 3. -/
def pad3 (n : Nat) : String :=
  let ds := decChars n
  String.mk (List.replicate (3 - ds.length) '0' ++ ds)

/-- Positional value of big-endian decimal digit characters. -/
def digitsValBE : List Char → Nat
  | [] => 0
  | c :: cs => digitVal c * 10 ^ cs.length + digitsValBE cs

/-- Decimal value of a digit-character list (leading zeros are harmless). -/
def unpadVal (cs : List Char) : Nat := cs.foldl (fun a c => a * 10 + digitVal c) 0

/-! ## The run: events, external-tool oracles, state -/

/-- Observable steps of the run, in execution order. -/
inductive Event where
  /-- the case's builder callback is invoked against a fresh presentation -/
  | buildCase (id : String)
  /-- `prs.save(author)` -/
  | saveAuthor (path : String)
  /-- the `meta.json` write -/
  | writeMeta (path : String)
  /-- one `soffice --convert-to` invocation -/
  | soffice (inputPath outdir outExt : String)
  /-- one `pdftoppm` invocation -/
  | pdftoppm (pdfPath outPrefix : String)
  /-- the manifest write -/
  | writeManifest (path : String)
deriving DecidableEq, Repr

/-- Oracles for everything outside the script: the authoring library (whether a builder
raises, and the bytes it serializes), the wall clock, and for each numbered external
invocation its exit status, captured streams, and the files it creates. -/
structure Env where
  /-- opaque contents of the two shared assets -/
  assetContent : Nat → Nat
  /-- does the case's builder return normally? -/
  buildOk : String → Bool
  /-- opaque serialized bytes of `author.pptx` per case -/
  authorContent : String → Nat
  /-- `datetime.datetime.utcnow().isoformat()` per call -/
  now : Nat → String
  /-- result of the k-th `soffice` invocation -/
  convRes : Nat → RunResult
  /-- files (name, node) the k-th `soffice` invocation creates in its `--outdir` -/
  convCreated : Nat → List (String × FNode)
  /-- result of the k-th `pdftoppm` invocation -/
  ppmRes : Nat → RunResult
  /-- ordering suffixes of the page files the k-th `pdftoppm` invocation produces -/
  ppmSuffixes : Nat → List String
  /-- opaque content of the i-th page file of the k-th `pdftoppm` invocation -/
  ppmContent : Nat → Nat → Nat

/-- Run state: the filesystem, the event trace, how many external invocations and
clock reads happened, and the manifest once assembled. -/
structure St where
  fs : FS
  trace : List Event
  convCount : Nat
  ppmCount : Nat
  nowCount : Nat
  manifest : Option Manifest
deriving DecidableEq, Repr

/-- The errors that abort the run (uncaught Python exceptions). -/
inductive RunError where
  /-- a case's builder raised -/
  | builderRaised (caseId : String)
  /-- `soffice_convert` raised -/
  | conv (e : ConvError)
  /-- `pdftoppm` exited nonzero (line 71) -/
  | pdftoppmFailed (rc : Int) (stdout stderr : String)
deriving DecidableEq, Repr

/-- One call of `soffice_convert` within the run: the external tool deposits the files
it creates in `outdir` and reports its captured result, the invocation is recorded, and
the output path is resolved exactly as in `sofficeConvert`.  An error carries the state
at raise time. -/
def doConvert (env : Env) (st : St) (inputPath outdir outExt : String) :
    Except (RunError × St) (St × String) :=
  let k := st.convCount
  let fs := (env.convCreated k).foldl
    (fun fs (e : String × FNode) => fsWrite fs (childPath outdir e.1) e.2) st.fs
  let st' : St := { st with fs := fs,
                            trace := st.trace ++ [.soffice inputPath outdir outExt],
                            convCount := k + 1 }
  match sofficeConvert inputPath outdir outExt (env.convRes k) (dirEntries fs outdir) with
  | .ok p => .ok (st', p)
  | .error e => .error (.conv e, st')

/-- One conversion hop of `main` (lines 334-338 and 340-344): call `soffice_convert`,
delete any pre-existing file at the fixed destination, move the resolved output there. -/
def convertAndPlace (env : Env) (st : St) (inputPath tmp outExt refPath : String) :
    Except (RunError × St) St := do
  let (st', outPath) ← doConvert env st inputPath tmp outExt
  let fs := if fsExists st'.fs refPath then fsRemove st'.fs refPath else st'.fs
  .ok { st' with fs := fsMove fs outPath refPath }

/-- `pdftoppm_png` (lines 66-72) with `outprefix = childPath dir base`: invoke the
tool (it creates `<base>-<suffix>.png` in `dir` for each page), raise on nonzero exit,
and return the lexicographically sorted glob of `<outprefix>-*.png` paths. -/
def pdftoppmPng (env : Env) (st : St) (pdfPath dir base : String) :
    Except (RunError × St) (St × List String) :=
  let k := st.ppmCount
  let fs := (env.ppmSuffixes k).enum.foldl
    (fun fs (e : Nat × String) =>
      fsWrite fs (childPath dir (base ++ "-" ++ e.2 ++ ".png")) ⟨.bin (env.ppmContent k e.1), 0⟩)
    st.fs
  let st' : St := { st with fs := fs,
                            trace := st.trace ++ [.pdftoppm pdfPath (childPath dir base)],
                            ppmCount := k + 1 }
  let res := env.ppmRes k
  if res.rc ≠ 0 then
    .error (.pdftoppmFailed res.rc res.stdout res.stderr, st')
  else
    .ok (st', stableSort strLt
      ((globDir fs dir (base ++ "-*.png")).map (fun e => childPath dir e.name)))

/-- The `os.replace` loop of `render_to_pngs` (lines 288-289): the i-th sorted raw page
file becomes `slide-{idx:03d}.png` (1-indexed). -/
def renameSlides (fmtDir : String) : FS → List String → Nat → FS
  | fs, [], _ => fs
  | fs, fp :: rest, idx =>
    renameSlides fmtDir (fsMove fs fp (childPath fmtDir ("slide-" ++ pad3 idx ++ ".png")))
      rest (idx + 1)

/-- `render_to_pngs` (lines 274-291): clear normalized pages, convert to PDF into the
shared temp directory, move the PDF to `slides.pdf`, clear temporary-prefixed files,
rasterize, rename raw pages into the normalized sequence, clear temporaries again. -/
def renderToPngs (env : Env) (st : St) (inPath fmtDir tmp : String) :
    Except (RunError × St) St := do
  let st := { st with fs := fsRemoveGlob st.fs fmtDir "slide-*.png" }
  let (st, pdfOut) ← doConvert env st inPath tmp "pdf"
  let pdfTarget := childPath fmtDir "slides.pdf"
  let fs := if fsExists st.fs pdfTarget then fsRemove st.fs pdfTarget else st.fs
  let st := { st with fs := fsRemoveGlob (fsMove fs pdfOut pdfTarget) fmtDir "__raw_slide-*.png" }
  let (st, pngs) ← pdftoppmPng env st pdfTarget fmtDir "__raw_slide"
  let st := { st with fs := renameSlides fmtDir st.fs pngs 1 }
  .ok { st with fs := fsRemoveGlob st.fs fmtDir "__raw_slide-*.png" }

/-- `build_assets` (lines 101-117): write the two shared assets, return their paths. -/
def buildAssets (env : Env) (root : String) (st : St) : St × String × String :=
  let assetsDir := childPath root "assets"
  let pngPath := childPath assetsDir "sample.png"
  let jpgPath := childPath assetsDir "sample.jpg"
  let fs := fsWrite st.fs pngPath ⟨.bin (env.assetContent 0), 0⟩
  let fs := fsWrite fs jpgPath ⟨.bin (env.assetContent 1), 0⟩
  ({ st with fs := fs }, pngPath, jpgPath)

/-- One iteration of the authoring loop (lines 302-320): fresh presentation, builder
callback (which may raise), save `author.pptx`, write `meta.json`. -/
def authorCase (env : Env) (casesDir : String) (st : St) (c : CaseSpec) :
    Except (RunError × St) St :=
  let cdir := childPath casesDir c.id
  let st := { st with trace := st.trace ++ [.buildCase c.id] }
  if env.buildOk c.id then
    let author := childPath cdir "author.pptx"
    let st := { st with fs := fsWrite st.fs author ⟨.bin (env.authorContent c.id), 0⟩,
                        trace := st.trace ++ [Event.saveAuthor author] }
    let meta : MetaRecord :=
      ⟨c.id, c.title, c.description, c.tags, c.slides, c.level, env.now st.nowCount ++ "Z"⟩
    let metaPath := childPath cdir "meta.json"
    .ok { st with fs := fsWrite st.fs metaPath ⟨.metaFile meta, 0⟩,
                  trace := st.trace ++ [Event.writeMeta metaPath],
                  nowCount := st.nowCount + 1 }
  else
    .error (.builderRaised c.id, st)

/-- The authoring loop (`for c in specs`, lines 302-320). -/
def authorPhase (env : Env) (casesDir : String) : List CaseSpec → St → Except (RunError × St) St
  | [], st => .ok st
  | c :: rest, st => do
    let st ← authorCase env casesDir st c
    authorPhase env casesDir rest st

/-- One iteration of the convert-and-render loop (lines 323-351). -/
def convertCase (env : Env) (casesDir : String) (st : St) (c : CaseSpec) :
    Except (RunError × St) St := do
  let cdir := childPath casesDir c.id
  let tmp := childPath cdir "_lo_out"
  let st := { st with fs := fsRmtree st.fs tmp }
  let author := childPath cdir "author.pptx"
  let refPpt := childPath cdir "ref.ppt"
  let refPptx := childPath cdir "ref.pptx"
  let st ← convertAndPlace env st author tmp "ppt" refPpt
  let st ← convertAndPlace env st refPpt tmp "pptx" refPptx
  let renderDir := childPath cdir "render"
  let st ← renderToPngs env st refPpt (childPath renderDir "ppt") tmp
  let st ← renderToPngs env st refPptx (childPath renderDir "pptx") tmp
  .ok { st with fs := fsRmtree st.fs tmp }

/-- The convert-and-render loop (`for c in specs`, lines 323-351). -/
def convertPhase (env : Env) (casesDir : String) : List CaseSpec → St → Except (RunError × St) St
  | [], st => .ok st
  | c :: rest, st => do
    let st ← convertCase env casesDir st c
    convertPhase env casesDir rest st

/-- `main` from the case list on (lines 301-371): author every case, then convert and
render every case, then assemble and write the manifest once. -/
def mainOn (env : Env) (root : String) (specs : List CaseSpec) (st : St) :
    Except (RunError × St) St := do
  let casesDir := childPath root "cases"
  let st ← authorPhase env casesDir specs st
  let st ← convertPhase env casesDir specs st
  let m := mkManifest (env.now st.nowCount) specs
  let manifestPath := childPath root "manifest.json"
  .ok { st with fs := fsWrite st.fs manifestPath ⟨.manifestFile m, 0⟩,
                trace := st.trace ++ [.writeManifest manifestPath],
                nowCount := st.nowCount + 1,
                manifest := some m }

/-- `main` (lines 294-371): `root` abstracts the absolute `ROOT` path.  Build the shared
assets, obtain the registry, then run both loops and write the manifest. -/
def mainModel (env : Env) (root : String) (fs0 : FS) : Except (RunError × St) St :=
  let st0 : St := ⟨fs0, [], 0, 0, 0, none⟩
  let (st1, pngPath, jpgPath) := buildAssets env root st0
  mainOn env root (cases pngPath jpgPath) st1

/-- The state carried by a run outcome (final state on success, state at raise time on
an abort). -/
def stateOf : Except (RunError × St) St → St
  | .ok st => st
  | .error (_, st) => st

/-! ## Derived notions used by the theorem statements -/

/-- The expected output basename of `soffice_convert`:
`os.path.splitext(os.path.basename(input_path))[0] + "." + out_ext` (lines 56-57). -/
def expectedName (inputPath outExt : String) : String :=
  splitextRoot (pyBasename inputPath) ++ "." ++ outExt

/-- Does a file name carry the extension `ext` (it ends in `"." ++ ext`)? -/
def hasDotExt (name ext : String) : Prop :=
  ("." ++ ext).toList <:+ name.toList

instance (name ext : String) : Decidable (hasDotExt name ext) :=
  inferInstanceAs (Decidable (_ <:+ _))

/-- The normalized page-image name `slide-{i:03d}.png`. -/
def slideName (i : Nat) : String := "slide-" ++ pad3 i ++ ".png"

/-- The raw rasterizer output name `__raw_slide-<suffix>.png`. -/
def rawSlideName (s : String) : String := "__raw_slide-" ++ s ++ ".png"

/-- Does the event belong to the processing of the case `id` (by its id, or by an input
or output path lying inside the case's workspace directory)? -/
def eventInCase (casesDir id : String) (e : Event) : Bool :=
  let inside (p : String) : Bool := strHasPrefix (childPath casesDir id ++ "/") p
  match e with
  | .buildCase i => i = id
  | .saveAuthor p => inside p
  | .writeMeta p => inside p
  | .soffice input outdir _ => inside input || inside outdir
  | .pdftoppm pdf pre => inside pdf || inside pre
  | .writeManifest _ => false

/-- The positions in the trace at which an event of case `id` occurs. -/
def eventPositions (casesDir id : String) (tr : List Event) : List Nat :=
  (List.range tr.length).filter
    (fun p => eventInCase casesDir id (tr.getD p (.writeManifest "")))

/-- The cross-case ordering asserted by the specification: for any two registry
positions `i < j`, every event of case `i` occurs in the trace strictly before every
event of case `j`. -/
def casesSequential (casesDir : String) (ids : List String) (tr : List Event) : Bool :=
  (List.range ids.length).all fun i =>
    (List.range ids.length).all fun j =>
      !(decide (i < j)) ||
        ((eventPositions casesDir (ids.getD i "") tr).all fun p =>
          (eventPositions casesDir (ids.getD j "") tr).all fun q => decide (p < q))

/-- The events the authoring loop emits for one case, in order. -/
def authorBlock (casesDir : String) (c : CaseSpec) : List Event :=
  let cdir := childPath casesDir c.id
  [.buildCase c.id, .saveAuthor (childPath cdir "author.pptx"),
   .writeMeta (childPath cdir "meta.json")]

/-- The events the convert-and-render loop emits for one case, in order: hop 1, hop 2,
then for each of the two variants the PDF conversion and the rasterization. -/
def convertBlock (casesDir : String) (c : CaseSpec) : List Event :=
  let cdir := childPath casesDir c.id
  let tmp := childPath cdir "_lo_out"
  let renderDir := childPath cdir "render"
  let pptDir := childPath renderDir "ppt"
  let pptxDir := childPath renderDir "pptx"
  [.soffice (childPath cdir "author.pptx") tmp "ppt",
   .soffice (childPath cdir "ref.ppt") tmp "pptx",
   .soffice (childPath cdir "ref.ppt") tmp "pdf",
   .pdftoppm (childPath pptDir "slides.pdf") (childPath pptDir "__raw_slide"),
   .soffice (childPath cdir "ref.pptx") tmp "pdf",
   .pdftoppm (childPath pptxDir "slides.pdf") (childPath pptxDir "__raw_slide")]

/-- Is the event a manifest write? -/
def isWriteManifest : Event → Bool
  | .writeManifest _ => true
  | _ => false

/-- Paths at which the run never writes, deletes, or overwrites anything: everything
except the two shared assets, the manifest, and — per case — the four fixed artifact
files, the `_lo_out` temporary subtree, and the `render` subtree. -/
def untouchedPath (root : String) (specs : List CaseSpec) (p : String) : Prop :=
  p ≠ childPath (childPath root "assets") "sample.png" ∧
  p ≠ childPath (childPath root "assets") "sample.jpg" ∧
  p ≠ childPath root "manifest.json" ∧
  ∀ c ∈ specs,
    p ≠ childPath (childPath (childPath root "cases") c.id) "author.pptx" ∧
    p ≠ childPath (childPath (childPath root "cases") c.id) "meta.json" ∧
    p ≠ childPath (childPath (childPath root "cases") c.id) "ref.ppt" ∧
    p ≠ childPath (childPath (childPath root "cases") c.id) "ref.pptx" ∧
    strHasPrefix (childPath (childPath (childPath root "cases") c.id) "_lo_out" ++ "/") p = false ∧
    strHasPrefix (childPath (childPath (childPath root "cases") c.id) "render" ++ "/") p = false

instance (root : String) (specs : List CaseSpec) (p : String) :
    Decidable (untouchedPath root specs p) := by
  unfold untouchedPath; infer_instance

/-- Well-formed filesystem: each path is bound at most once. -/
def fsWF (fs : FS) : Prop := (fs.map Prod.fst).Nodup

/-! ## Concrete oracle environments for the closed witness theorems -/

/-- An environment in which every external step succeeds: every builder returns, every
`soffice` invocation exits 0 and creates exactly the file the next stage expects
(`author.ppt`, `ref.pptx`, or `ref.pdf` following the script's per-case invocation
pattern), and every `pdftoppm` invocation exits 0 producing a single page `-1`. -/
def envAllOk : Env where
  assetContent := fun i => i
  buildOk := fun _ => true
  authorContent := fun _ => 0
  now := fun _ => "2026-01-01T00:00:00"
  convRes := fun _ => ⟨0, "", ""⟩
  convCreated := fun k =>
    if k % 4 = 0 then [("author.ppt", ⟨.bin 1, 1⟩)]
    else if k % 4 = 1 then [("ref.pptx", ⟨.bin 2, 2⟩)]
    else [("ref.pdf", ⟨.bin 3, 3⟩)]
  ppmRes := fun _ => ⟨0, "", ""⟩
  ppmSuffixes := fun _ => ["1"]
  ppmContent := fun _ _ => 10

/-- `envAllOk` but the builder of the first registry case raises. -/
def envBuildFail : Env :=
  { envAllOk with buildOk := fun id => id ≠ "000_blank" }

/-- `envAllOk` but the very first `soffice` invocation exits 77. -/
def envConvFail : Env :=
  { envAllOk with convRes := fun k => if k = 0 then ⟨77, "boom", "bang"⟩ else ⟨0, "", ""⟩ }

/-- A small oracle environment exercising `render_to_pngs` in isolation: the single
`soffice` invocation exits 0 and creates `out.pdf`, and the single `pdftoppm`
invocation exits 0 producing two pages with suffixes `1` and `2`. -/
def envC4 : Env where
  assetContent := fun _ => 0
  buildOk := fun _ => true
  authorContent := fun _ => 0
  now := fun _ => "t"
  convRes := fun _ => ⟨0, "", ""⟩
  convCreated := fun _ => [("out.pdf", ⟨.bin 7, 5⟩)]
  ppmRes := fun _ => ⟨0, "", ""⟩
  ppmSuffixes := fun _ => ["1", "2"]
  ppmContent := fun _ i => 100 + i

/-- A starting state holding one stale normalized page image in the variant directory. -/
def stC4 : St where
  fs := [(childPath "fmt" (slideName 777), ⟨.bin 9, 9⟩)]
  trace := []
  convCount := 0
  ppmCount := 0
  nowCount := 0
  manifest := none

/-! ## Infrastructure lemmas: strings and paths -/

theorem toList_append (a b : String) : (a ++ b).toList = a.toList ++ b.toList := rfl

theorem childPath_toList (d n : String) :
    (childPath d n).toList = d.toList ++ '/' :: n.toList := by
  show (d.toList ++ "/".toList) ++ n.toList = _
  simp


theorem slashFree_not_mem {n : String} (h : slashFree n = true) : '/' ∉ n.toList := by
  intro hm
  have := (List.all_eq_true.mp h) '/' hm
  simp at this

theorem slashFree_of_forall {n : String} (h : ∀ x ∈ n.toList, x ≠ '/') :
    slashFree n = true := by
  apply List.all_eq_true.mpr
  intro x hx
  simpa using h x hx

theorem lastSlashSplit_unique {ds1 ns1 ds2 ns2 : List Char}
    (h1 : '/' ∉ ns1) (h2 : '/' ∉ ns2)
    (h : ds1 ++ '/' :: ns1 = ds2 ++ '/' :: ns2) : ds1 = ds2 ∧ ns1 = ns2 := by
  induction ds1 generalizing ds2 with
  | nil =>
    cases ds2 with
    | nil => simpa using h
    | cons c cs =>
      exfalso
      simp only [List.nil_append, List.cons_append, List.cons.injEq] at h
      apply h1
      rw [h.2]
      exact List.mem_append.mpr (Or.inr (List.mem_cons_self _ _))
  | cons c cs ih =>
    cases ds2 with
    | nil =>
      exfalso
      simp only [List.nil_append, List.cons_append, List.cons.injEq] at h
      apply h2
      rw [← h.2]
      exact List.mem_append.mpr (Or.inr (List.mem_cons_self _ _))
    | cons d dsr =>
      simp only [List.cons_append, List.cons.injEq] at h
      obtain ⟨rfl, hrest⟩ := h
      obtain ⟨hds, hns⟩ := ih hrest
      exact ⟨by rw [hds], hns⟩

theorem childPath_inj {d1 n1 d2 n2 : String}
    (h1 : slashFree n1 = true) (h2 : slashFree n2 = true) :
    childPath d1 n1 = childPath d2 n2 ↔ d1 = d2 ∧ n1 = n2 := by
  constructor
  · intro h
    have hl : (childPath d1 n1).toList = (childPath d2 n2).toList := by rw [h]
    rw [childPath_toList, childPath_toList] at hl
    obtain ⟨hd, hn⟩ := lastSlashSplit_unique (slashFree_not_mem h1) (slashFree_not_mem h2) hl
    exact ⟨String.ext hd, String.ext hn⟩
  · rintro ⟨rfl, rfl⟩; rfl

theorem takeWhile_append_cons {α} (p : α → Bool) (xs : List α) (y : α) (ys : List α)
    (hxs : ∀ x ∈ xs, p x = true) (hy : p y = false) :
    (xs ++ y :: ys).takeWhile p = xs := by
  induction xs with
  | nil => simp [List.takeWhile, hy]
  | cons x xs ih =>
    have hx := hxs x (List.mem_cons_self _ _)
    simp only [List.cons_append, List.takeWhile, hx]
    simp [ih (fun a ha => hxs a (List.mem_cons_of_mem _ ha))]

theorem drop_length_succ_append_cons {α} (xs : List α) (y : α) (ys : List α) :
    (xs ++ y :: ys).drop (xs.length + 1) = ys := by
  induction xs with
  | nil => simp
  | cons x xs ih => simp only [List.cons_append, List.length_cons, List.drop_succ_cons, ih]

theorem splitPath_childPath (d n : String) (h : slashFree n = true) :
    splitPath (childPath d n) = some (d, n) := by
  simp only [splitPath, childPath_toList]
  rw [show (d.toList ++ '/' :: n.toList).reverse
      = n.toList.reverse ++ '/' :: d.toList.reverse by simp]
  rw [takeWhile_append_cons _ _ _ _
    (fun x hx => by
      have hxn : x ∈ n.toList := List.mem_reverse.mp hx
      have hne : x ≠ '/' := fun hx' => slashFree_not_mem h (hx' ▸ hxn)
      simpa using hne)
    (by simp)]
  rw [if_neg (by simp)]
  rw [drop_length_succ_append_cons]
  simp

theorem takeWhile_length_ne_split {α} (p : α → Bool) (r : List α)
    (h : (r.takeWhile p).length ≠ r.length) :
    ∃ y ys, p y = false ∧ r = r.takeWhile p ++ y :: ys := by
  induction r with
  | nil => simp at h
  | cons c cs ih =>
    by_cases hc : p c = true
    · simp only [List.takeWhile, hc] at h ⊢
      have h' : (cs.takeWhile p).length ≠ cs.length := by simpa using h
      obtain ⟨y, ys, hy, heq⟩ := ih h'
      exact ⟨y, ys, hy, by rw [List.cons_append, ← heq]⟩
    · have hc' : p c = false := by simpa using hc
      refine ⟨c, cs, hc', ?_⟩
      simp [List.takeWhile, hc']

theorem splitPath_eq_some {p d n : String} (h : splitPath p = some (d, n)) :
    p = childPath d n ∧ slashFree n = true := by
  simp only [splitPath] at h
  by_cases hlen : ((p.toList.reverse).takeWhile (fun c => decide (c ≠ '/'))).length
      = p.toList.reverse.length
  · rw [if_pos hlen] at h
    exact absurd h (by simp)
  · rw [if_neg hlen] at h
    obtain ⟨y, ys, hy, heq⟩ := takeWhile_length_ne_split _ p.toList.reverse hlen
    have hyc : y = '/' := by simpa using hy
    subst hyc
    simp only [Option.some.injEq, Prod.mk.injEq] at h
    obtain ⟨hd, hn⟩ := h
    have hdrop : p.toList.reverse.drop
        (((p.toList.reverse).takeWhile (fun c => decide (c ≠ '/'))).length + 1) = ys := by
      nth_rewrite 2 [heq]
      exact drop_length_succ_append_cons _ _ _
    have hnfree : slashFree n = true := by
      apply slashFree_of_forall
      intro x hx
      rw [← hn] at hx
      have hx' : x ∈ (p.toList.reverse).takeWhile (fun c => decide (c ≠ '/')) := by
        exact List.mem_reverse.mp hx
      have := List.mem_takeWhile_imp hx'
      simpa using this
    refine ⟨?_, hnfree⟩
    apply String.ext
    show p.toList = (childPath d n).toList
    rw [childPath_toList, ← hd, ← hn]
    have hp : p.toList = ((p.toList.reverse).takeWhile (fun c => decide (c ≠ '/'))
        ++ '/' :: ys).reverse := by
      rw [← heq]; simp
    rw [hdrop]
    rw [hp]
    simp
    rw [takeWhile_append_cons (fun c => !decide (c = '/')) _ '/' ys
      (fun x hx => by simpa using List.mem_takeWhile_imp hx) (by simp)]
/-! ## Infrastructure lemmas: glob matching -/

theorem mem_suffixesOf {t cs : List Char} : t ∈ suffixesOf cs ↔ t <:+ cs := by
  induction cs with
  | nil => simp [suffixesOf]
  | cons c cs ih => simp [suffixesOf, ih, List.suffix_cons_iff]

theorem globLiteral_forall {s : String} (h : globLiteral s = true) :
    ∀ c ∈ s.toList, isMagicChar c = false := by
  intro c hc
  have := List.all_eq_true.mp h c hc
  simpa using this

theorem globLiteral_append (a b : String) :
    globLiteral (a ++ b) = (globLiteral a && globLiteral b) := by
  simp [globLiteral, toList_append, List.all_append]

theorem fnmatch_literal {ps cs : List Char} (h : ∀ c ∈ ps, isMagicChar c = false) :
    fnmatchChars ps cs = true ↔ cs = ps := by
  induction ps generalizing cs with
  | nil => cases cs <;> simp [fnmatchChars]
  | cons p ps ih =>
    have hp := h p (List.mem_cons_self _ _)
    have hps : p ≠ '*' := by intro e; subst e; simp [isMagicChar] at hp
    have hq : p ≠ '?' := by intro e; subst e; simp [isMagicChar] at hp
    cases cs with
    | nil => simp [fnmatchChars, hps, hq]
    | cons c cs' =>
      have ih' := @ih cs' (fun a ha => h a (List.mem_cons_of_mem _ ha))
      simp only [fnmatchChars, if_neg hps, if_neg hq, Bool.and_eq_true, decide_eq_true_eq,
        List.cons.injEq, ih']
      constructor
      · rintro ⟨rfl, rfl⟩; exact ⟨rfl, rfl⟩
      · rintro ⟨rfl, rfl⟩; exact ⟨rfl, rfl⟩

theorem fnmatch_star_literal {ps cs : List Char} (h : ∀ c ∈ ps, isMagicChar c = false) :
    fnmatchChars ('*' :: ps) cs = true ↔ ps <:+ cs := by
  have hstep : fnmatchChars ('*' :: ps) cs
      = (suffixesOf cs).any (fun t => fnmatchChars ps t) := by
    simp [fnmatchChars]
  rw [hstep, List.any_eq_true]
  constructor
  · rintro ⟨t, ht, hm⟩
    have := (fnmatch_literal h).mp hm
    subst this
    exact mem_suffixesOf.mp ht
  · intro hs
    exact ⟨ps, mem_suffixesOf.mpr hs, (fnmatch_literal h).mpr rfl⟩

theorem globMatch_literal {pat name : String} (h : globLiteral pat = true) :
    globMatch pat name = true ↔ name = pat := by
  unfold globMatch
  constructor
  · intro hm
    have := (Bool.and_eq_true _ _).mp hm
    exact String.ext ((fnmatch_literal (globLiteral_forall h)).mp this.2)
  · rintro rfl
    apply (Bool.and_eq_true _ _).mpr
    refine ⟨?_, (fnmatch_literal (globLiteral_forall h)).mpr rfl⟩
    cases hh : isHiddenChars name.toList <;> simp [hh]

theorem star_dot_toList (ext : String) : ("*." ++ ext).toList = '*' :: '.' :: ext.toList := rfl

theorem dot_toList (ext : String) : ("." ++ ext).toList = '.' :: ext.toList := rfl

theorem globMatch_star_ext {ext name : String} (hext : globLiteral ext = true)
    (hhid : isHiddenChars name.toList = false) :
    globMatch ("*." ++ ext) name = true ↔ hasDotExt name ext := by
  unfold globMatch hasDotExt
  rw [star_dot_toList, dot_toList, hhid]
  have hlit : ∀ c ∈ '.' :: ext.toList, isMagicChar c = false := by
    intro c hc
    rcases List.mem_cons.mp hc with rfl | hc
    · rfl
    · exact globLiteral_forall hext c hc
  simp only [Bool.not_false, Bool.true_or, Bool.true_and]
  exact fnmatch_star_literal hlit

theorem fnmatch_star_of_ext {ext name : String}
    (hm : globMatch ("*." ++ ext) name = true) (hext : globLiteral ext = true) :
    hasDotExt name ext := by
  unfold globMatch at hm
  rw [star_dot_toList] at hm
  have := (Bool.and_eq_true _ _).mp hm
  have hlit : ∀ c ∈ '.' :: ext.toList, isMagicChar c = false := by
    intro c hc
    rcases List.mem_cons.mp hc with rfl | hc
    · rfl
    · exact globLiteral_forall hext c hc
  have := (fnmatch_star_literal hlit).mp this.2
  simpa [hasDotExt, dot_toList] using this

theorem expectedName_hasDotExt (inputPath outExt : String) :
    hasDotExt (expectedName inputPath outExt) outExt := by
  unfold expectedName hasDotExt
  rw [dot_toList]
  have : (splitextRoot (pyBasename inputPath) ++ "." ++ outExt).toList
      = (splitextRoot (pyBasename inputPath)).toList ++ '.' :: outExt.toList := by
    rw [toList_append, toList_append]
    simp
  rw [this]
  exact List.suffix_append _ _

/-! ## Infrastructure lemmas: the stable sort -/

theorem stableSort_cons (lt : α → α → Bool) (b : α) (bs : List α) :
    stableSort lt (b :: bs) = insStable lt b (stableSort lt bs) := rfl

theorem mem_insStable {lt : α → α → Bool} {a x : α} {l : List α} :
    x ∈ insStable lt a l ↔ x = a ∨ x ∈ l := by
  induction l with
  | nil => simp [insStable]
  | cons b bs ih =>
    simp only [insStable]
    split
    · simp only [List.mem_cons, ih]
      tauto
    · simp only [List.mem_cons]

theorem mem_stableSort {lt : α → α → Bool} {x : α} {l : List α} :
    x ∈ stableSort lt l ↔ x ∈ l := by
  induction l with
  | nil => simp [stableSort]
  | cons b bs ih =>
    rw [stableSort_cons, mem_insStable, ih]
    simp

theorem pairwise_insStable {lt : α → α → Bool}
    (hneg : ∀ x y z, lt x y = false → lt y z = false → lt x z = false)
    (hasym : ∀ x y, lt x y = true → lt y x = false)
    {a : α} {l : List α} (hl : l.Pairwise (fun x y => lt y x = false)) :
    (insStable lt a l).Pairwise (fun x y => lt y x = false) := by
  induction l with
  | nil => simp [insStable]
  | cons b bs ih =>
    rw [List.pairwise_cons] at hl
    obtain ⟨hb, hbs⟩ := hl
    simp only [insStable]
    split
    · rename_i hba
      refine List.Pairwise.cons ?_ (ih hbs)
      intro y hy
      rcases mem_insStable.mp hy with rfl | hy
      · exact hasym _ _ hba
      · exact hb y hy
    · rename_i hba
      have hba' : lt b a = false := by simpa using hba
      refine List.Pairwise.cons ?_ (List.Pairwise.cons hb hbs)
      intro y hy
      rcases List.mem_cons.mp hy with rfl | hy
      · exact hba'
      · exact hneg y b a (hb y hy) hba'

theorem pairwise_stableSort {lt : α → α → Bool}
    (hneg : ∀ x y z, lt x y = false → lt y z = false → lt x z = false)
    (hasym : ∀ x y, lt x y = true → lt y x = false)
    (l : List α) :
    (stableSort lt l).Pairwise (fun x y => lt y x = false) := by
  induction l with
  | nil => simp [stableSort]
  | cons b bs ih =>
    rw [stableSort_cons]
    exact pairwise_insStable hneg hasym ih

theorem mtimeDesc_neg_trans :
    ∀ x y z : DirEntry, mtimeDesc x y = false → mtimeDesc y z = false → mtimeDesc x z = false := by
  intro x y z h1 h2
  simp only [mtimeDesc, decide_eq_false_iff_not, not_lt] at *
  omega

theorem mtimeDesc_asymm :
    ∀ x y : DirEntry, mtimeDesc x y = true → mtimeDesc y x = false := by
  intro x y h
  simp only [mtimeDesc, decide_eq_true_eq, decide_eq_false_iff_not, not_lt] at *
  omega

/-! ## Lemmas about the resolution of soffice output -/

theorem sofficeResolve_exact {inputPath outExt : String} {entries : List DirEntry}
    {c : DirEntry} {rest : List DirEntry}
    (h : entries.filter
      (fun e => globMatch (splitextRoot (pyBasename inputPath) ++ "." ++ outExt) e.name)
      = c :: rest) :
    sofficeResolve inputPath outExt entries = some c := by
  simp only [sofficeResolve, h]
  rfl

theorem sofficeResolve_fallback {inputPath outExt : String} {entries : List DirEntry}
    {c : DirEntry} {rest : List DirEntry}
    (h1 : entries.filter
      (fun e => globMatch (splitextRoot (pyBasename inputPath) ++ "." ++ outExt) e.name) = [])
    (h2 : stableSort mtimeDesc
      (entries.filter (fun e => globMatch ("*." ++ outExt) e.name)) = c :: rest) :
    sofficeResolve inputPath outExt entries = some c := by
  simp only [sofficeResolve, h1, h2]
  rfl

theorem sofficeResolve_none {inputPath outExt : String} {entries : List DirEntry}
    (h1 : entries.filter
      (fun e => globMatch (splitextRoot (pyBasename inputPath) ++ "." ++ outExt) e.name) = [])
    (h2 : stableSort mtimeDesc
      (entries.filter (fun e => globMatch ("*." ++ outExt) e.name)) = []) :
    sofficeResolve inputPath outExt entries = none := by
  simp only [sofficeResolve, h1, h2]
  rfl

theorem sofficeConvert_ok {inputPath outdir outExt : String} {res : RunResult}
    {entries : List DirEntry} (hrc : res.rc = 0) :
    sofficeConvert inputPath outdir outExt res entries
      = match sofficeResolve inputPath outExt entries with
        | some e => .ok (childPath outdir e.name)
        | none => .error (.outputMissing inputPath outExt outdir) := by
  simp [sofficeConvert, hrc]

/-- C1: for a conversion invocation that exits zero (with wildcard-free interpolations
and no hidden files in the output directory, as in every invocation the script makes):
if a file named `<input basename>.<ext>` is present in the output directory, exactly
that path is returned; otherwise, whenever any file of the target extension is present,
some file of the target extension whose modification time is maximal among them is
returned. -/
theorem soffice_output_resolution
    (inputPath outdir outExt : String) (res : RunResult) (entries : List DirEntry)
    (hrc : res.rc = 0)
    (hbase : globLiteral (splitextRoot (pyBasename inputPath)) = true)
    (hext : globLiteral outExt = true)
    (hhid : ∀ e ∈ entries, isHiddenChars e.name.toList = false) :
    ((∃ e ∈ entries, e.name = expectedName inputPath outExt) →
      sofficeConvert inputPath outdir outExt res entries
        = .ok (childPath outdir (expectedName inputPath outExt))) ∧
    ((∀ e ∈ entries, e.name ≠ expectedName inputPath outExt) →
      ∀ e0 ∈ entries, hasDotExt e0.name outExt →
      ∃ w ∈ entries, hasDotExt w.name outExt ∧
        (∀ f ∈ entries, hasDotExt f.name outExt → f.node.mtime ≤ w.node.mtime) ∧
        sofficeConvert inputPath outdir outExt res entries
          = .ok (childPath outdir w.name)) := by
  have hdot : globLiteral "." = true := by decide
  have hpat1 : globLiteral (expectedName inputPath outExt) = true := by
    unfold expectedName
    rw [globLiteral_append, globLiteral_append]
    simp [hbase, hext, hdot]
  constructor
  · rintro ⟨e, he, hname⟩
    rw [sofficeConvert_ok hrc]
    have hmem : globMatch (expectedName inputPath outExt) e.name = true :=
      (globMatch_literal hpat1).mpr hname
    cases hf : entries.filter
        (fun x => globMatch (splitextRoot (pyBasename inputPath) ++ "." ++ outExt) x.name) with
    | nil =>
      exfalso
      exact List.filter_eq_nil_iff.mp hf e he hmem
    | cons c rest =>
      rw [sofficeResolve_exact hf]
      have hc : c ∈ entries.filter
          (fun x => globMatch (splitextRoot (pyBasename inputPath) ++ "." ++ outExt) x.name) :=
        hf ▸ List.mem_cons_self c rest
      have hcname : c.name = expectedName inputPath outExt :=
        (globMatch_literal hpat1).mp (List.mem_filter.mp hc).2
      show Except.ok (childPath outdir c.name) = _
      rw [hcname]
  · intro hnone e0 he0 hex0
    rw [sofficeConvert_ok hrc]
    have hf1 : entries.filter
        (fun x => globMatch (splitextRoot (pyBasename inputPath) ++ "." ++ outExt) x.name)
        = [] := by
      apply List.filter_eq_nil_iff.mpr
      intro a ha hglob
      exact hnone a ha ((globMatch_literal hpat1).mp hglob)
    have hmem0 : e0 ∈ entries.filter (fun x => globMatch ("*." ++ outExt) x.name) :=
      List.mem_filter.mpr ⟨he0, (globMatch_star_ext hext (hhid e0 he0)).mpr hex0⟩
    have hmem0' : e0 ∈ stableSort mtimeDesc
        (entries.filter (fun x => globMatch ("*." ++ outExt) x.name)) :=
      mem_stableSort.mpr hmem0
    cases hs : stableSort mtimeDesc
        (entries.filter (fun x => globMatch ("*." ++ outExt) x.name)) with
    | nil =>
      rw [hs] at hmem0'
      simp at hmem0'
    | cons w rest =>
      have hwmem : w ∈ entries.filter (fun x => globMatch ("*." ++ outExt) x.name) := by
        apply mem_stableSort.mp
        rw [hs]
        exact List.mem_cons_self _ _
      have hw := List.mem_filter.mp hwmem
      have hwext : hasDotExt w.name outExt := fnmatch_star_of_ext hw.2 hext
      refine ⟨w, hw.1, hwext, ?_, ?_⟩
      · intro f hfmem hfext
        have hfmem' : f ∈ stableSort mtimeDesc
            (entries.filter (fun x => globMatch ("*." ++ outExt) x.name)) :=
          mem_stableSort.mpr
            (List.mem_filter.mpr ⟨hfmem, (globMatch_star_ext hext (hhid f hfmem)).mpr hfext⟩)
        rw [hs] at hfmem'
        rcases List.mem_cons.mp hfmem' with rfl | hfr
        · exact le_refl _
        · have hpw := pairwise_stableSort mtimeDesc_neg_trans mtimeDesc_asymm
            (entries.filter (fun x => globMatch ("*." ++ outExt) x.name))
          rw [hs] at hpw
          have := (List.pairwise_cons.mp hpw).1 f hfr
          simp only [mtimeDesc, decide_eq_false_iff_not, not_lt] at this
          exact this
      · rw [sofficeResolve_fallback hf1 hs]

/-- C1 witness: a directory where only the fallback applies, holding `other1.ppt`
(mtime 5) and `other2.ppt` (mtime 9); the invocation exits zero and the newer
`other2.ppt` is returned. -/
theorem soffice_output_resolution_witness :
    sofficeConvert "author.pptx" "out" "ppt" ⟨0, "", ""⟩
      [⟨"other1.ppt", ⟨.bin 0, 5⟩⟩, ⟨"other2.ppt", ⟨.bin 1, 9⟩⟩]
      = .ok (childPath "out" "other2.ppt") ∧
    sofficeConvert "author.pptx" "out" "ppt" ⟨0, "", ""⟩
      [⟨"author.ppt", ⟨.bin 0, 5⟩⟩, ⟨"other2.ppt", ⟨.bin 1, 9⟩⟩]
      = .ok (childPath "out" (expectedName "author.pptx" "ppt")) := by
  constructor
  · obtain ⟨w, hwmem, hwext, hwmax, hweq⟩ :=
      (soffice_output_resolution "author.pptx" "out" "ppt" ⟨0, "", ""⟩
        [⟨"other1.ppt", ⟨.bin 0, 5⟩⟩, ⟨"other2.ppt", ⟨.bin 1, 9⟩⟩]
        rfl (by decide) (by decide) (by decide)).2
      (by decide) ⟨"other2.ppt", ⟨.bin 1, 9⟩⟩ (by decide) (by decide)
    have hw : w = ⟨"other2.ppt", ⟨.bin 1, 9⟩⟩ := by
      have h5 := hwmax ⟨"other2.ppt", ⟨.bin 1, 9⟩⟩ (by decide) (by decide)
      have hcases : w = (⟨"other1.ppt", ⟨.bin 0, 5⟩⟩ : DirEntry)
          ∨ w = (⟨"other2.ppt", ⟨.bin 1, 9⟩⟩ : DirEntry) := by
        simpa using hwmem
      rcases hcases with h | h
      · exfalso
        rw [h] at h5
        simp at h5
      · exact h
    rw [hweq, hw]
  · exact (soffice_output_resolution "author.pptx" "out" "ppt" ⟨0, "", ""⟩
      [⟨"author.ppt", ⟨.bin 0, 5⟩⟩, ⟨"other2.ppt", ⟨.bin 1, 9⟩⟩]
      rfl (by decide) (by decide) (by decide)).1
      ⟨⟨"author.ppt", ⟨.bin 0, 5⟩⟩, by decide, by decide⟩

/-- C2: a conversion invocation that exits zero but finds no file of the target
extension in the output directory fails with the distinct output-missing error, never
with the nonzero-exit error. -/
theorem soffice_output_missing
    (inputPath outdir outExt : String) (res : RunResult) (entries : List DirEntry)
    (hrc : res.rc = 0)
    (hbase : globLiteral (splitextRoot (pyBasename inputPath)) = true)
    (hext : globLiteral outExt = true)
    (hnone : ∀ e ∈ entries, ¬ hasDotExt e.name outExt) :
    sofficeConvert inputPath outdir outExt res entries
      = .error (.outputMissing inputPath outExt outdir) ∧
    ∀ rc out err cmd, sofficeConvert inputPath outdir outExt res entries
      ≠ .error (.nonzeroExit rc out err cmd) := by
  have hdot : globLiteral "." = true := by decide
  have hpat1 : globLiteral (expectedName inputPath outExt) = true := by
    unfold expectedName
    rw [globLiteral_append, globLiteral_append]
    simp [hbase, hext, hdot]
  have hf1 : entries.filter
      (fun x => globMatch (splitextRoot (pyBasename inputPath) ++ "." ++ outExt) x.name)
      = [] := by
    apply List.filter_eq_nil_iff.mpr
    intro a ha hglob
    have hname : a.name = expectedName inputPath outExt := (globMatch_literal hpat1).mp hglob
    exact hnone a ha (hname ▸ expectedName_hasDotExt inputPath outExt)
  have hf2 : entries.filter (fun x => globMatch ("*." ++ outExt) x.name) = [] := by
    apply List.filter_eq_nil_iff.mpr
    intro a ha hglob
    exact hnone a ha (fnmatch_star_of_ext hglob hext)
  have hmain : sofficeConvert inputPath outdir outExt res entries
      = .error (.outputMissing inputPath outExt outdir) := by
    rw [sofficeConvert_ok hrc, sofficeResolve_none hf1 (by rw [hf2]; rfl)]
  refine ⟨hmain, ?_⟩
  intro rc out err cmd h
  rw [hmain] at h
  simp at h

/-- C2 witness: an invocation exiting zero over a directory holding only a `.txt` file
fails with the output-missing error. -/
theorem soffice_output_missing_witness :
    sofficeConvert "author.pptx" "out" "ppt" ⟨0, "", ""⟩ [⟨"junk.txt", ⟨.bin 0, 5⟩⟩]
      = .error (.outputMissing "author.pptx" "ppt" "out") ∧
    ∀ rc outs errs cmd,
      sofficeConvert "author.pptx" "out" "ppt" ⟨0, "", ""⟩ [⟨"junk.txt", ⟨.bin 0, 5⟩⟩]
        ≠ .error (.nonzeroExit rc outs errs cmd) :=
  soffice_output_missing "author.pptx" "out" "ppt" ⟨0, "", ""⟩ [⟨"junk.txt", ⟨.bin 0, 5⟩⟩]
    rfl (by decide) (by decide) (by decide)

/-! ## Infrastructure lemmas: the filesystem model -/

theorem fsGet_cons (e : String × FNode) (l : FS) (p : String) :
    fsGet (e :: l) p = if e.1 = p then some e.2 else fsGet l p := by
  by_cases h : e.1 = p <;> simp [fsGet, List.find?, h]

theorem fsGet_fsFilterP (fs : FS) (keep : String → Bool) (p : String) :
    fsGet (fsFilterP fs keep) p = if keep p then fsGet fs p else none := by
  induction fs with
  | nil => by_cases h : keep p <;> simp [fsGet, fsFilterP, h]
  | cons e rest ih =>
    by_cases he : keep e.1
    · rw [show fsFilterP (e :: rest) keep = e :: fsFilterP rest keep by
        simp [fsFilterP, he]]
      rw [fsGet_cons, fsGet_cons, ih]
      by_cases hp : e.1 = p
      · subst hp
        simp [he]
      · simp [hp]
    · rw [show fsFilterP (e :: rest) keep = fsFilterP rest keep by
        simp [fsFilterP, List.filter, he]]
      rw [ih, fsGet_cons]
      by_cases hp : e.1 = p
      · subst hp
        simp [he]
      · simp [hp]

theorem fsGet_fsRemove (fs : FS) (q p : String) :
    fsGet (fsRemove fs q) p = if p = q then none else fsGet fs p := by
  rw [fsRemove, fsGet_fsFilterP]
  by_cases h : p = q <;> simp [h]

theorem fsGet_fsWrite (fs : FS) (q : String) (d : FNode) (p : String) :
    fsGet (fsWrite fs q d) p = if p = q then some d else fsGet fs p := by
  rw [fsWrite, fsGet_cons, fsGet_fsRemove]
  by_cases h : p = q
  · subst h
    simp
  · have h2 : ¬ q = p := fun e => h e.symm
    simp [h, h2]

theorem fsGet_fsMove_other (fs : FS) (src dst p : String)
    (hsrc : p ≠ src) (hdst : p ≠ dst) :
    fsGet (fsMove fs src dst) p = fsGet fs p := by
  unfold fsMove
  cases fsGet fs src with
  | none => rfl
  | some d => rw [fsGet_fsWrite, if_neg hdst, fsGet_fsRemove, if_neg hsrc]

theorem fsGet_fsRmtree (fs : FS) (dir p : String) :
    fsGet (fsRmtree fs dir) p
      = if strHasPrefix (dir ++ "/") p then none else fsGet fs p := by
  rw [fsRmtree, fsGet_fsFilterP]
  by_cases h : strHasPrefix (dir ++ "/") p <;> simp [h]

theorem fsGet_fsRemoveGlob_nosplit (fs : FS) (dir pat p : String)
    (hsp : splitPath p = none) :
    fsGet (fsRemoveGlob fs dir pat) p = fsGet fs p := by
  rw [fsRemoveGlob, fsGet_fsFilterP]
  simp [hsp]

theorem fsGet_fsRemoveGlob_split (fs : FS) (dir pat p d n : String)
    (hsp : splitPath p = some (d, n)) :
    fsGet (fsRemoveGlob fs dir pat) p
      = if d = dir ∧ globMatch pat n = true then none else fsGet fs p := by
  rw [fsRemoveGlob, fsGet_fsFilterP]
  by_cases hd : d = dir
  · subst hd
    by_cases hg : globMatch pat n = true
    · simp [hsp, hg]
    · simp [hsp, hg]
  · simp [hsp, hd]

theorem strHasPrefix_childPath (d n : String) :
    strHasPrefix (d ++ "/") (childPath d n) = true := by
  apply List.isPrefixOf_iff_prefix.mpr
  rw [childPath_toList]
  rw [show (d ++ "/").toList = d.toList ++ ['/'] from rfl]
  rw [show d.toList ++ '/' :: n.toList = (d.toList ++ ['/']) ++ n.toList by simp]
  exact List.prefix_append _ _

theorem ne_childPath_outside {d n p : String}
    (h : strHasPrefix (d ++ "/") p = false) : p ≠ childPath d n := by
  intro he
  rw [he, strHasPrefix_childPath] at h
  cases h

theorem fsGet_writeAll (fs : FS) (outdir : String) (created : List (String × FNode))
    (p : String) (hp : strHasPrefix (outdir ++ "/") p = false) :
    fsGet (created.foldl
      (fun fs e => fsWrite fs (childPath outdir e.1) e.2) fs) p = fsGet fs p := by
  induction created generalizing fs with
  | nil => rfl
  | cons e rest ih =>
    rw [List.foldl_cons, ih]
    rw [fsGet_fsWrite, if_neg (ne_childPath_outside hp)]

/-! ## C3: nonzero exit of the external converter -/

/-- C3: a conversion hop of `main` whose external invocation exits nonzero fails with
the error carrying that exit code, both captured streams, and the exact invoked command;
exactly one invocation is recorded (no retry); and the file at the fixed destination
path is unchanged. -/
theorem hop_nonzero_exit_fails
    (env : Env) (st : St) (inputPath tmp outExt refPath : String)
    (hrc : (env.convRes st.convCount).rc ≠ 0)
    (hdst : strHasPrefix (tmp ++ "/") refPath = false) :
    ∃ st', convertAndPlace env st inputPath tmp outExt refPath
        = .error (.conv (.nonzeroExit (env.convRes st.convCount).rc
            (env.convRes st.convCount).stdout (env.convRes st.convCount).stderr
            (sofficeCmd inputPath tmp outExt)), st') ∧
      st'.trace = st.trace ++ [.soffice inputPath tmp outExt] ∧
      st'.convCount = st.convCount + 1 ∧
      fsGet st'.fs refPath = fsGet st.fs refPath := by
  have hconv : sofficeConvert inputPath tmp outExt (env.convRes st.convCount)
      (dirEntries ((env.convCreated st.convCount).foldl
        (fun fs e => fsWrite fs (childPath tmp e.1) e.2) st.fs) tmp)
      = .error (.nonzeroExit (env.convRes st.convCount).rc
          (env.convRes st.convCount).stdout (env.convRes st.convCount).stderr
          (sofficeCmd inputPath tmp outExt)) := by
    simp [sofficeConvert, hrc]
  refine ⟨{ st with
      fs := (env.convCreated st.convCount).foldl
        (fun fs e => fsWrite fs (childPath tmp e.1) e.2) st.fs,
      trace := st.trace ++ [.soffice inputPath tmp outExt],
      convCount := st.convCount + 1 }, ?_, rfl, rfl, ?_⟩
  · simp only [convertAndPlace, doConvert, hconv]
    rfl
  · exact fsGet_writeAll st.fs tmp (env.convCreated st.convCount) refPath hdst

/-- C3 witness: with the first invocation exiting 77 (streams "boom"/"bang"), the first
hop of the first case fails carrying exactly those diagnostics and one recorded
invocation, and the destination `ref.ppt` is untouched. -/
theorem hop_nonzero_exit_fails_witness :
    ∃ st', convertAndPlace envConvFail ⟨[], [], 0, 0, 0, none⟩
        "R/cases/000_blank/author.pptx" "R/cases/000_blank/_lo_out" "ppt"
        "R/cases/000_blank/ref.ppt"
        = .error (.conv (.nonzeroExit 77 "boom" "bang"
            (sofficeCmd "R/cases/000_blank/author.pptx" "R/cases/000_blank/_lo_out" "ppt")),
          st') ∧
      st'.trace = [] ++ [.soffice "R/cases/000_blank/author.pptx"
        "R/cases/000_blank/_lo_out" "ppt"] ∧
      st'.convCount = 0 + 1 ∧
      fsGet st'.fs "R/cases/000_blank/ref.ppt"
        = fsGet ([] : FS) "R/cases/000_blank/ref.ppt" :=
  hop_nonzero_exit_fails envConvFail ⟨[], [], 0, 0, 0, none⟩
    "R/cases/000_blank/author.pptx" "R/cases/000_blank/_lo_out" "ppt"
    "R/cases/000_blank/ref.ppt" (by decide) (by decide)

/-! ## C6: the case registry is fixed and its ids are unique -/

/-- C6: the registry returns a fixed ordered list: its case ids are pairwise distinct,
and the ids, their order, and all non-builder fields are identical across any two calls
with any asset paths. -/
theorem registry_fixed_and_unique (p1 j1 p2 j2 : String) :
    ((cases p1 j1).map CaseSpec.summary = (cases p2 j2).map CaseSpec.summary) ∧
    ((cases p1 j1).map CaseSpec.id).Nodup ∧
    ((cases p1 j1).map CaseSpec.id = (cases p2 j2).map CaseSpec.id) := by
  refine ⟨rfl, ?_, rfl⟩
  show (["000_blank", "010_text_basic", "011_text_bullets", "020_shapes_basic",
    "021_line_styles", "030_images_basic", "031_images_crop_rotate", "040_table_basic",
    "050_chart_bar", "060_hyperlink", "080_multislide"] : List String).Nodup
  decide

/-! ## C9: the page size is approximately, not exactly, 16:9 -/

/-- C9 counterexample: the stored page size of `new_prs` — `int(13.333 * 914400)` by
`int(7.5 * 914400)` EMU, i.e. 12191695 : 6858000 — does not have exact ratio 16 : 9. -/
theorem page_ratio_not_16_9 :
    ¬ ((new_prs.slide_width : ℚ) / (new_prs.slide_height : ℚ) = 16 / 9) := by
  have hw : new_prs.slide_width = 12191695 := by
    show Inches (13333 / 1000) = 12191695
    unfold Inches emuPerInch
    rw [Int.floor_eq_iff]
    norm_num
  have hh : new_prs.slide_height = 6858000 := by
    show Inches (15 / 2) = 6858000
    unfold Inches emuPerInch
    rw [Int.floor_eq_iff]
    norm_num
  rw [hw, hh]
  norm_num

/-- C9 amended: the stored page size of `new_prs` is only approximately 16:9: its exact
width-to-height ratio is 12191695/6858000, which differs from 16/9 by less than 1/20000
but is not equal to it. -/
theorem page_ratio_approx_16_9 :
    (new_prs.slide_width : ℚ) / (new_prs.slide_height : ℚ) = 12191695 / 6858000 ∧
    |(new_prs.slide_width : ℚ) / (new_prs.slide_height : ℚ) - 16 / 9| < 1 / 20000 ∧
    (new_prs.slide_width : ℚ) / (new_prs.slide_height : ℚ) ≠ 16 / 9 := by
  have hw : new_prs.slide_width = 12191695 := by
    show Inches (13333 / 1000) = 12191695
    unfold Inches emuPerInch
    rw [Int.floor_eq_iff]
    norm_num
  have hh : new_prs.slide_height = 6858000 := by
    show Inches (15 / 2) = 6858000
    unfold Inches emuPerInch
    rw [Int.floor_eq_iff]
    norm_num
  rw [hw, hh]
  refine ⟨by norm_num, ?_, by norm_num⟩
  rw [abs_sub_lt_iff]
  constructor <;> norm_num

/-! ## C10: a raising builder aborts the run before saves, conversions, manifest -/

theorem casePath_ne {casesDir id1 id2 f1 f2 : String} (hid : id1 ≠ id2)
    (h1 : slashFree id1 = true) (h2 : slashFree id2 = true)
    (hf1 : slashFree f1 = true) (hf2 : slashFree f2 = true) :
    childPath (childPath casesDir id1) f1 ≠ childPath (childPath casesDir id2) f2 := by
  intro h
  obtain ⟨hd, _⟩ := (childPath_inj hf1 hf2).mp h
  exact hid ((childPath_inj h1 h2).mp hd).2

theorem authorCase_ok (env : Env) (casesDir : String) (st : St) (c : CaseSpec)
    (hok : env.buildOk c.id = true) :
    authorCase env casesDir st c = .ok
      { st with
        fs := fsWrite
          (fsWrite st.fs (childPath (childPath casesDir c.id) "author.pptx")
            ⟨.bin (env.authorContent c.id), 0⟩)
          (childPath (childPath casesDir c.id) "meta.json")
          ⟨.metaFile ⟨c.id, c.title, c.description, c.tags, c.slides, c.level,
            env.now st.nowCount ++ "Z"⟩, 0⟩,
        trace := st.trace ++ authorBlock casesDir c,
        nowCount := st.nowCount + 1 } := by
  simp only [authorCase, hok, if_pos, authorBlock]
  simp [List.append_assoc]

theorem authorCase_fail (env : Env) (casesDir : String) (st : St) (c : CaseSpec)
    (hfail : env.buildOk c.id = false) :
    authorCase env casesDir st c
      = .error (.builderRaised c.id, { st with trace := st.trace ++ [.buildCase c.id] }) := by
  simp [authorCase, hfail]

theorem authorPhase_fail_general (env : Env) (casesDir : String) (c : CaseSpec)
    (post : List CaseSpec) (hfail : env.buildOk c.id = false) (hsfc : slashFree c.id = true)
    (pre : List CaseSpec) :
    ∀ (st : St),
      (∀ x ∈ pre, env.buildOk x.id = true) →
      (∀ x ∈ pre, x.id ≠ c.id) →
      (∀ x ∈ pre, slashFree x.id = true) →
      ∃ st', authorPhase env casesDir (pre ++ c :: post) st
          = .error (.builderRaised c.id, st') ∧
        st'.trace = st.trace ++ pre.flatMap (authorBlock casesDir) ++ [.buildCase c.id] ∧
        st'.convCount = st.convCount ∧ st'.ppmCount = st.ppmCount ∧
        st'.manifest = st.manifest ∧
        fsGet st'.fs (childPath (childPath casesDir c.id) "author.pptx")
          = fsGet st.fs (childPath (childPath casesDir c.id) "author.pptx") ∧
        fsGet st'.fs (childPath (childPath casesDir c.id) "meta.json")
          = fsGet st.fs (childPath (childPath casesDir c.id) "meta.json") := by
  induction pre with
  | nil =>
    intro st _ _ _
    refine ⟨{ st with trace := st.trace ++ [.buildCase c.id] }, ?_, by simp, rfl, rfl,
      rfl, rfl, rfl⟩
    show authorPhase env casesDir (c :: post) st = _
    simp only [authorPhase]
    rw [authorCase_fail env casesDir st c hfail]
    rfl
  | cons x xs ih =>
    intro st hok hids hsf
    have hokx : env.buildOk x.id = true := hok x (List.mem_cons_self _ _)
    obtain ⟨st', heq, htr, hcc, hpc, hman, hfa, hfm⟩ :=
      ih ({ st with
        fs := fsWrite
          (fsWrite st.fs (childPath (childPath casesDir x.id) "author.pptx")
            ⟨.bin (env.authorContent x.id), 0⟩)
          (childPath (childPath casesDir x.id) "meta.json")
          ⟨.metaFile ⟨x.id, x.title, x.description, x.tags, x.slides, x.level,
            env.now st.nowCount ++ "Z"⟩, 0⟩,
        trace := st.trace ++ authorBlock casesDir x,
        nowCount := st.nowCount + 1 })
        (fun a ha => hok a (List.mem_cons_of_mem _ ha))
        (fun a ha => hids a (List.mem_cons_of_mem _ ha))
        (fun a ha => hsf a (List.mem_cons_of_mem _ ha))
    have hidx : x.id ≠ c.id := hids x (List.mem_cons_self _ _)
    have hsfx : slashFree x.id = true := hsf x (List.mem_cons_self _ _)
    refine ⟨st', ?_, ?_, hcc, hpc, hman, ?_, ?_⟩
    · show authorPhase env casesDir (x :: (xs ++ c :: post)) st = _
      simp only [authorPhase]
      rw [authorCase_ok env casesDir st x hokx]
      exact heq
    · rw [htr]
      simp [List.flatMap_cons, List.append_assoc]
    · rw [hfa, fsGet_fsWrite, fsGet_fsWrite,
        if_neg (casePath_ne (Ne.symm hidx) hsfc hsfx (by decide) (by decide)),
        if_neg (casePath_ne (Ne.symm hidx) hsfc hsfx (by decide) (by decide))]
    · rw [hfm, fsGet_fsWrite, fsGet_fsWrite,
        if_neg (casePath_ne (Ne.symm hidx) hsfc hsfx (by decide) (by decide)),
        if_neg (casePath_ne (Ne.symm hidx) hsfc hsfx (by decide) (by decide))]

/-- C10: if a case's builder raises (while all earlier builders returned), the run
aborts with the builder error right after that builder is invoked: the failing case's
`author.pptx` and `meta.json` are not written (for the earlier, successful cases the
trace shows the fixed order build, save, meta), no conversion of any case has been
invoked (both external-invocation counters are unchanged), and no manifest is written. -/
theorem builder_failure_aborts_run
    (env : Env) (root : String) (st : St) (pre post : List CaseSpec) (c : CaseSpec)
    (hfail : env.buildOk c.id = false)
    (hsfc : slashFree c.id = true)
    (hpre : ∀ x ∈ pre, env.buildOk x.id = true)
    (hids : ∀ x ∈ pre, x.id ≠ c.id)
    (hsf : ∀ x ∈ pre, slashFree x.id = true) :
    ∃ st', mainOn env root (pre ++ c :: post) st
        = .error (.builderRaised c.id, st') ∧
      st'.trace = st.trace
        ++ pre.flatMap (authorBlock (childPath root "cases")) ++ [.buildCase c.id] ∧
      st'.convCount = st.convCount ∧ st'.ppmCount = st.ppmCount ∧
      st'.manifest = st.manifest ∧
      fsGet st'.fs (childPath (childPath (childPath root "cases") c.id) "author.pptx")
        = fsGet st.fs (childPath (childPath (childPath root "cases") c.id) "author.pptx") ∧
      fsGet st'.fs (childPath (childPath (childPath root "cases") c.id) "meta.json")
        = fsGet st.fs (childPath (childPath (childPath root "cases") c.id) "meta.json") := by
  obtain ⟨st', heq, htr, hcc, hpc, hman, hfa, hfm⟩ :=
    authorPhase_fail_general env (childPath root "cases") c post hfail hsfc pre st
      hpre hids hsf
  refine ⟨st', ?_, htr, hcc, hpc, hman, hfa, hfm⟩
  simp only [mainOn]
  rw [heq]
  rfl

/-- C10 witness: with the first registry case's builder raising, the run aborts
immediately after invoking it: only its build event is on the trace, no external tool
ran, no manifest exists, and neither of its two files was written. -/
theorem builder_failure_aborts_run_witness :
    ∃ st', mainOn envBuildFail "R"
        ([] ++ (⟨"000_blank", "Blank baseline",
          "Single blank slide with background fill and centered text.",
          ["slide", "background", "text"], 1, "core", .blank⟩ : CaseSpec)
          :: (cases "p" "j").tail)
        ⟨[], [], 0, 0, 0, none⟩
        = .error (.builderRaised "000_blank", st') ∧
      st'.trace = ([] : List Event)
        ++ ([] : List CaseSpec).flatMap (authorBlock (childPath "R" "cases"))
        ++ [.buildCase "000_blank"] ∧
      st'.convCount = (0 : Nat) ∧ st'.ppmCount = (0 : Nat) ∧
      st'.manifest = (none : Option Manifest) ∧
      fsGet st'.fs (childPath (childPath (childPath "R" "cases") "000_blank") "author.pptx")
        = fsGet ([] : FS)
          (childPath (childPath (childPath "R" "cases") "000_blank") "author.pptx") ∧
      fsGet st'.fs (childPath (childPath (childPath "R" "cases") "000_blank") "meta.json")
        = fsGet ([] : FS)
          (childPath (childPath (childPath "R" "cases") "000_blank") "meta.json") :=
  builder_failure_aborts_run envBuildFail "R" ⟨[], [], 0, 0, 0, none⟩ []
    (cases "p" "j").tail
    ⟨"000_blank", "Blank baseline",
      "Single blank slide with background fill and centered text.",
      ["slide", "background", "text"], 1, "core", .blank⟩
    (by decide) (by decide) (by simp) (by simp) (by simp)

/-! ## Shape of successful runs -/

theorem doConvert_ok_shape {env : Env} {st : St} {inputPath outdir outExt : String}
    {st' : St} {p : String}
    (h : doConvert env st inputPath outdir outExt = .ok (st', p)) :
    st' = { st with
      fs := (env.convCreated st.convCount).foldl
        (fun fs e => fsWrite fs (childPath outdir e.1) e.2) st.fs,
      trace := st.trace ++ [.soffice inputPath outdir outExt],
      convCount := st.convCount + 1 } := by
  simp only [doConvert] at h
  split at h
  · simp only [Except.ok.injEq, Prod.mk.injEq] at h
    exact h.1.symm
  · cases h

theorem convertAndPlace_ok_shape {env : Env} {st : St}
    {inputPath tmp outExt refPath : String} {st2 : St}
    (h : convertAndPlace env st inputPath tmp outExt refPath = .ok st2) :
    st2.trace = st.trace ++ [.soffice inputPath tmp outExt] ∧
    st2.convCount = st.convCount + 1 ∧ st2.ppmCount = st.ppmCount ∧
    st2.nowCount = st.nowCount ∧ st2.manifest = st.manifest := by
  simp only [convertAndPlace, bind, Except.bind] at h
  split at h
  · cases h
  · rename_i a heq
    obtain ⟨st1, outPath⟩ := a
    have hshape := doConvert_ok_shape heq
    simp only [Except.ok.injEq] at h
    subst hshape
    rw [← h]
    exact ⟨rfl, rfl, rfl, rfl, rfl⟩

theorem pdftoppmPng_ok_shape {env : Env} {st : St} {pdfPath dir base : String}
    {st2 : St} {pngs : List String}
    (h : pdftoppmPng env st pdfPath dir base = .ok (st2, pngs)) :
    st2 = { st with
      fs := (env.ppmSuffixes st.ppmCount).enum.foldl
        (fun fs e =>
          fsWrite fs (childPath dir (base ++ "-" ++ e.2 ++ ".png"))
            ⟨.bin (env.ppmContent st.ppmCount e.1), 0⟩) st.fs,
      trace := st.trace ++ [.pdftoppm pdfPath (childPath dir base)],
      ppmCount := st.ppmCount + 1 } ∧
    pngs = stableSort strLt
      ((globDir ((env.ppmSuffixes st.ppmCount).enum.foldl
        (fun fs e =>
          fsWrite fs (childPath dir (base ++ "-" ++ e.2 ++ ".png"))
            ⟨.bin (env.ppmContent st.ppmCount e.1), 0⟩) st.fs)
        dir (base ++ "-*.png")).map (fun e => childPath dir e.name)) := by
  simp only [pdftoppmPng] at h
  split at h
  · cases h
  · simp only [Except.ok.injEq, Prod.mk.injEq] at h
    exact ⟨h.1.symm, h.2.symm⟩

theorem renderToPngs_ok_shape {env : Env} {st : St} {inPath fmtDir tmp : String}
    {st2 : St} (h : renderToPngs env st inPath fmtDir tmp = .ok st2) :
    st2.trace = st.trace ++ [.soffice inPath tmp "pdf",
      .pdftoppm (childPath fmtDir "slides.pdf") (childPath fmtDir "__raw_slide")] ∧
    st2.convCount = st.convCount + 1 ∧ st2.ppmCount = st.ppmCount + 1 ∧
    st2.nowCount = st.nowCount ∧ st2.manifest = st.manifest := by
  simp only [renderToPngs, bind, Except.bind] at h
  split at h
  · cases h
  · rename_i a heq1
    obtain ⟨st1, pdfOut⟩ := a
    have hs1 := doConvert_ok_shape heq1
    split at h
    · cases h
    · rename_i b heq2
      obtain ⟨stp, pngs⟩ := b
      have hs2 := (pdftoppmPng_ok_shape heq2).1
      simp only [Except.ok.injEq] at h
      rw [← h]
      subst hs2
      subst hs1
      refine ⟨?_, rfl, rfl, rfl, rfl⟩
      show ((st.trace ++ _) ++ _) = _
      simp [List.append_assoc]

theorem convertCase_ok_shape {env : Env} {casesDir : String} {st : St} {c : CaseSpec}
    {st' : St} (h : convertCase env casesDir st c = .ok st') :
    st'.trace = st.trace ++ convertBlock casesDir c ∧
    st'.nowCount = st.nowCount ∧ st'.manifest = st.manifest := by
  simp only [convertCase, bind, Except.bind] at h
  split at h
  · cases h
  · rename_i st1 heq1
    split at h
    · cases h
    · rename_i st2 heq2
      split at h
      · cases h
      · rename_i st3 heq3
        split at h
        · cases h
        · rename_i st4 heq4
          obtain ⟨ht1, _, _, hn1, hm1⟩ := convertAndPlace_ok_shape heq1
          obtain ⟨ht2, _, _, hn2, hm2⟩ := convertAndPlace_ok_shape heq2
          obtain ⟨ht3, _, _, hn3, hm3⟩ := renderToPngs_ok_shape heq3
          obtain ⟨ht4, _, _, hn4, hm4⟩ := renderToPngs_ok_shape heq4
          simp only [Except.ok.injEq] at h
          rw [← h]
          refine ⟨?_, ?_, ?_⟩
          · show st4.trace = _
            rw [ht4, ht3, ht2, ht1]
            show ((((st.trace ++ _) ++ _) ++ _) ++ _) = _
            simp [convertBlock, List.append_assoc]
          · show st4.nowCount = _
            rw [hn4, hn3, hn2, hn1]
          · show st4.manifest = _
            rw [hm4, hm3, hm2, hm1]

theorem convertPhase_ok_shape {env : Env} {casesDir : String} :
    ∀ {specs : List CaseSpec} {st st' : St},
      convertPhase env casesDir specs st = .ok st' →
      st'.trace = st.trace ++ specs.flatMap (convertBlock casesDir) ∧
      st'.nowCount = st.nowCount ∧ st'.manifest = st.manifest := by
  intro specs
  induction specs with
  | nil =>
    intro st st' h
    simp only [convertPhase] at h
    simp only [Except.ok.injEq] at h
    rw [← h]
    simp
  | cons c rest ih =>
    intro st st' h
    simp only [convertPhase, bind, Except.bind] at h
    split at h
    · cases h
    · rename_i st1 heq1
      obtain ⟨ht1, hn1, hm1⟩ := convertCase_ok_shape heq1
      obtain ⟨htr, hnr, hmr⟩ := ih h
      refine ⟨?_, ?_, ?_⟩
      · rw [htr, ht1]
        simp [List.append_assoc]
      · rw [hnr, hn1]
      · rw [hmr, hm1]

theorem authorCase_ok_shape {env : Env} {casesDir : String} {st : St} {c : CaseSpec}
    {st' : St} (h : authorCase env casesDir st c = .ok st') :
    st'.trace = st.trace ++ authorBlock casesDir c ∧
    st'.convCount = st.convCount ∧ st'.ppmCount = st.ppmCount ∧
    st'.manifest = st.manifest := by
  by_cases hok : env.buildOk c.id = true
  · rw [authorCase_ok env casesDir st c hok] at h
    simp only [Except.ok.injEq] at h
    rw [← h]
    exact ⟨rfl, rfl, rfl, rfl⟩
  · rw [authorCase_fail env casesDir st c (by simpa using hok)] at h
    cases h

theorem authorPhase_ok_shape {env : Env} {casesDir : String} :
    ∀ {specs : List CaseSpec} {st st' : St},
      authorPhase env casesDir specs st = .ok st' →
      st'.trace = st.trace ++ specs.flatMap (authorBlock casesDir) ∧
      st'.convCount = st.convCount ∧ st'.ppmCount = st.ppmCount ∧
      st'.manifest = st.manifest := by
  intro specs
  induction specs with
  | nil =>
    intro st st' h
    simp only [authorPhase] at h
    simp only [Except.ok.injEq] at h
    rw [← h]
    simp
  | cons c rest ih =>
    intro st st' h
    simp only [authorPhase, bind, Except.bind] at h
    split at h
    · cases h
    · rename_i st1 heq1
      obtain ⟨ht1, hc1, hp1, hm1⟩ := authorCase_ok_shape heq1
      obtain ⟨htr, hcr, hpr, hmr⟩ := ih h
      refine ⟨?_, ?_, ?_, ?_⟩
      · rw [htr, ht1]
        simp [List.append_assoc]
      · rw [hcr, hc1]
      · rw [hpr, hp1]
      · rw [hmr, hm1]

theorem mainOn_ok_shape {env : Env} {root : String} {specs : List CaseSpec}
    {st st' : St} (h : mainOn env root specs st = .ok st') :
    st'.trace = st.trace ++ specs.flatMap (authorBlock (childPath root "cases"))
      ++ specs.flatMap (convertBlock (childPath root "cases"))
      ++ [.writeManifest (childPath root "manifest.json")] ∧
    ∃ k, st'.manifest = some (mkManifest (env.now k) specs) ∧
      fsGet st'.fs (childPath root "manifest.json")
        = some ⟨.manifestFile (mkManifest (env.now k) specs), 0⟩ := by
  simp only [mainOn, bind, Except.bind] at h
  split at h
  · cases h
  · rename_i st1 heq1
    split at h
    · cases h
    · rename_i st2 heq2
      obtain ⟨ht1, _, _, _⟩ := authorPhase_ok_shape heq1
      obtain ⟨ht2, _, _⟩ := convertPhase_ok_shape heq2
      simp only [Except.ok.injEq] at h
      rw [← h]
      constructor
      · show st2.trace ++ _ = _
        rw [ht2, ht1]
      · refine ⟨st2.nowCount, rfl, ?_⟩
        show fsGet (fsWrite st2.fs _ _) _ = _
        rw [fsGet_fsWrite, if_pos rfl]

/-! ## C8: execution order of the run -/

theorem filter_isWriteManifest_authorBlocks (cd : String) :
    ∀ specs : List CaseSpec,
      (specs.flatMap (authorBlock cd)).filter isWriteManifest = []
  | [] => rfl
  | c :: rest => by
    rw [List.flatMap_cons, List.filter_append,
      filter_isWriteManifest_authorBlocks cd rest]
    rfl

theorem filter_isWriteManifest_convertBlocks (cd : String) :
    ∀ specs : List CaseSpec,
      (specs.flatMap (convertBlock cd)).filter isWriteManifest = []
  | [] => rfl
  | c :: rest => by
    rw [List.flatMap_cons, List.filter_append,
      filter_isWriteManifest_convertBlocks cd rest]
    rfl

/-- C8 amended: a successful run is single-threaded and sequential but two-phase, not
case-by-case: first every case is authored in registry order (build, save author,
write meta per case); only then is each case, one at a time in registry order, converted
(hop 1, hop 2) and rasterized (PDF + rasterize per variant); the manifest write comes
last.  The whole trace is this concatenation. -/
theorem run_two_phase_trace
    (env : Env) (root : String) (fs0 : FS) (st' : St)
    (h : mainModel env root fs0 = .ok st') :
    st'.trace = (cases (childPath (childPath root "assets") "sample.png")
        (childPath (childPath root "assets") "sample.jpg")).flatMap
        (authorBlock (childPath root "cases"))
      ++ (cases (childPath (childPath root "assets") "sample.png")
        (childPath (childPath root "assets") "sample.jpg")).flatMap
        (convertBlock (childPath root "cases"))
      ++ [.writeManifest (childPath root "manifest.json")] := by
  simp only [mainModel, buildAssets] at h
  rw [(mainOn_ok_shape h).1]
  simp

set_option maxRecDepth 100000 in
set_option maxHeartbeats 2000000 in
/-- C8 amended, witness: the concrete all-success environment yields a successful run
(whose trace therefore has the two-phase form). -/
theorem run_two_phase_trace_witness :
    (mainModel envAllOk "R" []).isOk = true ∧
    (stateOf (mainModel envAllOk "R" [])).trace
      = (cases (childPath (childPath "R" "assets") "sample.png")
          (childPath (childPath "R" "assets") "sample.jpg")).flatMap
          (authorBlock (childPath "R" "cases"))
        ++ (cases (childPath (childPath "R" "assets") "sample.png")
          (childPath (childPath "R" "assets") "sample.jpg")).flatMap
          (convertBlock (childPath "R" "cases"))
        ++ [.writeManifest (childPath "R" "manifest.json")] := by
  refine ⟨by decide, ?_⟩
  cases hrun : mainModel envAllOk "R" [] with
  | ok st' =>
    have := run_two_phase_trace envAllOk "R" [] st' hrun
    simpa [stateOf] using this
  | error e =>
    exfalso
    have hok : (mainModel envAllOk "R" []).isOk = true := by decide
    rw [hrun] at hok
    cases hok

set_option maxRecDepth 100000 in
set_option maxHeartbeats 2000000 in
/-- C8 counterexample: on a fully successful concrete run, the claimed strict per-case
ordering (every stage of an earlier registry case before any stage of a later one) is
violated: all cases are authored before any case is converted. -/
theorem run_not_case_sequential :
    (mainModel envAllOk "R" []).isOk = true ∧
    casesSequential (childPath "R" "cases") ((cases "p" "j").map CaseSpec.id)
      (stateOf (mainModel envAllOk "R" [])).trace = false := by
  exact ⟨by decide, by decide⟩

/-! ## C5: the manifest of a fully successful run -/

/-- C5: a fully successful run ends with exactly one manifest write at the corpus root;
the manifest's cases list is the registry list, in order and of the same length, each
entry being exactly the six non-builder fields; and the manifest carries the generation
timestamp, the slide size, and the ordered render-pipeline description. -/
theorem manifest_structure_after_success
    (env : Env) (root : String) (fs0 : FS) (st' : St)
    (h : mainModel env root fs0 = .ok st') :
    ∃ m k, st'.manifest = some m ∧
      fsGet st'.fs (childPath root "manifest.json") = some ⟨.manifestFile m, 0⟩ ∧
      st'.trace.filter isWriteManifest
        = [.writeManifest (childPath root "manifest.json")] ∧
      m.cases = (cases (childPath (childPath root "assets") "sample.png")
        (childPath (childPath root "assets") "sample.jpg")).map CaseSpec.summary ∧
      m.cases.length = (cases (childPath (childPath root "assets") "sample.png")
        (childPath (childPath root "assets") "sample.jpg")).length ∧
      m.generated_at = env.now k ++ "Z" ∧
      m.slide_size = ⟨13333 / 1000, 15 / 2, (960, 540)⟩ ∧
      m.render_pipeline = ["libreoffice:convert-to pdf", "pdftoppm -png -r 72"] := by
  have htrace := run_two_phase_trace env root fs0 st' h
  simp only [mainModel, buildAssets] at h
  obtain ⟨_, k, hman, hget⟩ := mainOn_ok_shape h
  refine ⟨mkManifest (env.now k) _, k, hman, hget, ?_, ?_, ?_, rfl, rfl, rfl⟩
  · rw [htrace]
    rw [List.filter_append, List.filter_append,
      filter_isWriteManifest_authorBlocks, filter_isWriteManifest_convertBlocks]
    rfl
  · rfl
  · simp [mkManifest]

set_option maxRecDepth 100000 in
set_option maxHeartbeats 2000000 in
/-- C5 witness: the concrete all-success run satisfies the manifest contract. -/
theorem manifest_structure_after_success_witness :
    ∃ m k, (stateOf (mainModel envAllOk "R" [])).manifest = some m ∧
      fsGet (stateOf (mainModel envAllOk "R" [])).fs (childPath "R" "manifest.json")
        = some ⟨.manifestFile m, 0⟩ ∧
      (stateOf (mainModel envAllOk "R" [])).trace.filter isWriteManifest
        = [.writeManifest (childPath "R" "manifest.json")] ∧
      m.cases = (cases (childPath (childPath "R" "assets") "sample.png")
        (childPath (childPath "R" "assets") "sample.jpg")).map CaseSpec.summary ∧
      m.cases.length = (cases (childPath (childPath "R" "assets") "sample.png")
        (childPath (childPath "R" "assets") "sample.jpg")).length ∧
      m.generated_at = envAllOk.now k ++ "Z" ∧
      m.slide_size = ⟨13333 / 1000, 15 / 2, (960, 540)⟩ ∧
      m.render_pipeline = ["libreoffice:convert-to pdf", "pdftoppm -png -r 72"] := by
  cases hrun : mainModel envAllOk "R" [] with
  | ok st' =>
    have := manifest_structure_after_success envAllOk "R" [] st' hrun
    simpa [stateOf] using this
  | error e =>
    exfalso
    have hok : (mainModel envAllOk "R" []).isOk = true := by decide
    rw [hrun] at hok
    cases hok

/-! ## C7 machinery: paths outside the artifact locations are never touched -/

theorem strHasPrefix_trans {a b p : String} (hab : strHasPrefix a b = true)
    (hbp : strHasPrefix b p = true) : strHasPrefix a p = true := by
  apply List.isPrefixOf_iff_prefix.mpr
  exact (List.isPrefixOf_iff_prefix.mp hab).trans (List.isPrefixOf_iff_prefix.mp hbp)

theorem strHasPrefix_extend_false {a b p : String} (hab : strHasPrefix a b = true)
    (hp : strHasPrefix a p = false) : strHasPrefix b p = false := by
  cases hbp : strHasPrefix b p with
  | false => rfl
  | true => rw [strHasPrefix_trans hab hbp] at hp; cases hp

theorem strHasPrefix_childPath_slash (d n : String) :
    strHasPrefix (d ++ "/") (childPath d n ++ "/") = true := by
  apply List.isPrefixOf_iff_prefix.mpr
  rw [show (childPath d n ++ "/").toList = (childPath d n).toList ++ ['/'] from rfl]
  rw [childPath_toList]
  rw [show (d ++ "/").toList = d.toList ++ ['/'] from rfl]
  rw [show (d.toList ++ '/' :: n.toList) ++ ['/']
      = (d.toList ++ ['/']) ++ (n.toList ++ ['/']) by simp]
  exact List.prefix_append _ _

theorem sofficeConvert_ok_path {inputPath outdir outExt : String} {res : RunResult}
    {entries : List DirEntry} {q : String}
    (h : sofficeConvert inputPath outdir outExt res entries = .ok q) :
    ∃ n, q = childPath outdir n := by
  unfold sofficeConvert at h
  split at h
  · cases h
  · cases hres : sofficeResolve inputPath outExt entries with
    | some e =>
      rw [hres] at h
      simp only [Except.ok.injEq] at h
      exact ⟨e.name, h.symm⟩
    | none =>
      rw [hres] at h
      cases h

theorem doConvert_error_shape {env : Env} {st : St} {inputPath outdir outExt : String}
    {e : RunError} {st' : St}
    (h : doConvert env st inputPath outdir outExt = .error (e, st')) :
    st'.fs = (env.convCreated st.convCount).foldl
      (fun fs x => fsWrite fs (childPath outdir x.1) x.2) st.fs := by
  simp only [doConvert] at h
  split at h
  · cases h
  · simp only [Except.error.injEq, Prod.mk.injEq] at h
    rw [← h.2]

theorem fsGet_fsRemoveGlob_preserves {fs : FS} {dir pat p : String}
    (hp : strHasPrefix (dir ++ "/") p = false) :
    fsGet (fsRemoveGlob fs dir pat) p = fsGet fs p := by
  cases hsp : splitPath p with
  | none => exact fsGet_fsRemoveGlob_nosplit _ _ _ _ hsp
  | some dn =>
    obtain ⟨d, n⟩ := dn
    rw [fsGet_fsRemoveGlob_split _ _ _ _ _ _ hsp, if_neg]
    rintro ⟨rfl, _⟩
    obtain ⟨hpe, hsf⟩ := splitPath_eq_some hsp
    rw [hpe, strHasPrefix_childPath] at hp
    cases hp

theorem fsGet_writeAll_ppm (env : Env) (k : Nat) (fs : FS) (dir base : String)
    (l : List (Nat × String)) (p : String)
    (hp : strHasPrefix (dir ++ "/") p = false) :
    fsGet (l.foldl (fun fs e =>
      fsWrite fs (childPath dir (base ++ "-" ++ e.2 ++ ".png"))
        ⟨.bin (env.ppmContent k e.1), 0⟩) fs) p
      = fsGet fs p := by
  induction l generalizing fs with
  | nil => rfl
  | cons e rest ih =>
    rw [List.foldl_cons, ih]
    rw [fsGet_fsWrite, if_neg (ne_childPath_outside hp)]

theorem pdftoppmPng_error_shape {env : Env} {st : St} {pdfPath dir base : String}
    {e : RunError} {st' : St}
    (h : pdftoppmPng env st pdfPath dir base = .error (e, st')) :
    st'.fs = (env.ppmSuffixes st.ppmCount).enum.foldl
      (fun fs x =>
        fsWrite fs (childPath dir (base ++ "-" ++ x.2 ++ ".png"))
          ⟨.bin (env.ppmContent st.ppmCount x.1), 0⟩) st.fs := by
  simp only [pdftoppmPng] at h
  split at h
  · simp only [Except.error.injEq, Prod.mk.injEq] at h
    rw [← h.2]
  · cases h

theorem renameSlides_preserves (fmtDir : String) :
    ∀ (pngs : List String) (idx : Nat) (fs : FS) (p : String),
      (∀ fp ∈ pngs, ∃ n, fp = childPath fmtDir n) →
      strHasPrefix (fmtDir ++ "/") p = false →
      fsGet (renameSlides fmtDir fs pngs idx) p = fsGet fs p := by
  intro pngs
  induction pngs with
  | nil => intro idx fs p _ _; rfl
  | cons fp rest ih =>
    intro idx fs p hsrc hp
    simp only [renameSlides]
    rw [ih _ _ _ (fun x hx => hsrc x (List.mem_cons_of_mem _ hx)) hp]
    obtain ⟨n, hn⟩ := hsrc fp (List.mem_cons_self _ _)
    apply fsGet_fsMove_other
    · rw [hn]
      exact ne_childPath_outside hp
    · exact ne_childPath_outside hp

theorem doConvert_ok_path {env : Env} {st : St} {inputPath outdir outExt : String}
    {st' : St} {q : String}
    (h : doConvert env st inputPath outdir outExt = .ok (st', q)) :
    ∃ n, q = childPath outdir n := by
  simp only [doConvert] at h
  split at h
  · rename_i r hsc
    simp only [Except.ok.injEq, Prod.mk.injEq] at h
    exact h.2 ▸ sofficeConvert_ok_path hsc
  · cases h

theorem convertAndPlace_preserves {env : Env} {st : St}
    {inputPath tmp outExt refPath p : String}
    (hp1 : strHasPrefix (tmp ++ "/") p = false) (hp2 : p ≠ refPath) :
    fsGet (stateOf (convertAndPlace env st inputPath tmp outExt refPath)).fs p
      = fsGet st.fs p := by
  cases hr : convertAndPlace env st inputPath tmp outExt refPath with
  | error epair =>
    obtain ⟨e, st'⟩ := epair
    show fsGet st'.fs p = _
    simp only [convertAndPlace, bind, Except.bind] at hr
    split at hr
    · rename_i ep heq
      obtain ⟨e2, st2⟩ := ep
      simp only [Except.error.injEq, Prod.mk.injEq] at hr
      rw [← hr.2]
      rw [doConvert_error_shape heq]
      exact fsGet_writeAll _ _ _ _ hp1
    · rename_i a heq
      obtain ⟨st1, outPath⟩ := a
      cases hr
  | ok st2 =>
    show fsGet st2.fs p = _
    simp only [convertAndPlace, bind, Except.bind] at hr
    split at hr
    · cases hr
    · rename_i a heq
      obtain ⟨st1, outPath⟩ := a
      simp only [Except.ok.injEq] at hr
      rw [← hr]
      show fsGet (fsMove
        (if fsExists st1.fs refPath = true then fsRemove st1.fs refPath else st1.fs)
        outPath refPath) p = _
      obtain ⟨n, hn⟩ := doConvert_ok_path heq
      rw [fsGet_fsMove_other _ _ _ _
        (by rw [hn]; exact ne_childPath_outside hp1) hp2]
      have hfs1 : st1.fs = (env.convCreated st.convCount).foldl
          (fun fs x => fsWrite fs (childPath tmp x.1) x.2) st.fs := by
        rw [doConvert_ok_shape heq]
      by_cases hex : fsExists st1.fs refPath = true
      · rw [if_pos hex, fsGet_fsRemove, if_neg hp2, hfs1]
        exact fsGet_writeAll _ _ _ _ hp1
      · rw [if_neg hex, hfs1]
        exact fsGet_writeAll _ _ _ _ hp1

theorem renderToPngs_preserves {env : Env} {st : St} {inPath fmtDir tmp p : String}
    (hp1 : strHasPrefix (tmp ++ "/") p = false)
    (hp2 : strHasPrefix (fmtDir ++ "/") p = false) :
    fsGet (stateOf (renderToPngs env st inPath fmtDir tmp)).fs p = fsGet st.fs p := by
  cases hr : renderToPngs env st inPath fmtDir tmp with
  | error epair =>
    obtain ⟨e, st'⟩ := epair
    show fsGet st'.fs p = _
    simp only [renderToPngs, bind, Except.bind] at hr
    split at hr
    · rename_i ep heq
      obtain ⟨e2, st2⟩ := ep
      simp only [Except.error.injEq, Prod.mk.injEq] at hr
      rw [← hr.2]
      rw [doConvert_error_shape heq]
      show fsGet (List.foldl _ _ _) p = _
      rw [fsGet_writeAll _ _ _ _ hp1]
      exact fsGet_fsRemoveGlob_preserves hp2
    · rename_i a heq1
      obtain ⟨st1, pdfOut⟩ := a
      obtain ⟨n, hn⟩ := doConvert_ok_path heq1
      have hfs1 : fsGet st1.fs p = fsGet st.fs p := by
        rw [doConvert_ok_shape heq1]
        show fsGet (List.foldl _ _ _) p = _
        rw [fsGet_writeAll _ _ _ _ hp1]
        exact fsGet_fsRemoveGlob_preserves hp2
      split at hr
      · rename_i ep2 heq2
        obtain ⟨e3, st3⟩ := ep2
        simp only [Except.error.injEq, Prod.mk.injEq] at hr
        rw [← hr.2]
        rw [pdftoppmPng_error_shape heq2]
        show fsGet (List.foldl _ _ _) p = _
        rw [fsGet_writeAll_ppm _ _ _ _ _ _ _ hp2]
        show fsGet (fsRemoveGlob _ _ _) p = _
        rw [fsGet_fsRemoveGlob_preserves hp2]
        rw [fsGet_fsMove_other _ _ _ _
          (by rw [hn]; exact ne_childPath_outside hp1)
          (ne_childPath_outside hp2)]
        by_cases hex : fsExists st1.fs (childPath fmtDir "slides.pdf") = true
        · rw [if_pos hex, fsGet_fsRemove,
            if_neg (ne_childPath_outside hp2)]
          exact hfs1
        · rw [if_neg hex]
          exact hfs1
      · rename_i b heq2
        obtain ⟨stp, pngs⟩ := b
        cases hr
  | ok st2 =>
    show fsGet st2.fs p = _
    simp only [renderToPngs, bind, Except.bind] at hr
    split at hr
    · cases hr
    · rename_i a heq1
      obtain ⟨st1, pdfOut⟩ := a
      obtain ⟨n, hn⟩ := doConvert_ok_path heq1
      have hfs1 : fsGet st1.fs p = fsGet st.fs p := by
        rw [doConvert_ok_shape heq1]
        show fsGet (List.foldl _ _ _) p = _
        rw [fsGet_writeAll _ _ _ _ hp1]
        exact fsGet_fsRemoveGlob_preserves hp2
      split at hr
      · cases hr
      · rename_i b heq2
        obtain ⟨stp, pngs⟩ := b
        simp only [Except.ok.injEq] at hr
        rw [← hr]
        show fsGet (fsRemoveGlob (renameSlides fmtDir stp.fs pngs 1)
          fmtDir "__raw_slide-*.png") p = _
        obtain ⟨hstp, hpngs⟩ := pdftoppmPng_ok_shape heq2
        have hsrc : ∀ fp ∈ pngs, ∃ m, fp = childPath fmtDir m := by
          intro fp hfp
          rw [hpngs] at hfp
          obtain ⟨entry, _, heqm⟩ := List.mem_map.mp (mem_stableSort.mp hfp)
          exact ⟨entry.name, heqm.symm⟩
        rw [fsGet_fsRemoveGlob_preserves hp2]
        rw [renameSlides_preserves fmtDir pngs 1 stp.fs p hsrc hp2]
        rw [hstp]
        show fsGet (List.foldl _ _ _) p = _
        rw [fsGet_writeAll_ppm _ _ _ _ _ _ _ hp2]
        show fsGet (fsRemoveGlob _ _ _) p = _
        rw [fsGet_fsRemoveGlob_preserves hp2]
        rw [fsGet_fsMove_other _ _ _ _
          (by rw [hn]; exact ne_childPath_outside hp1)
          (ne_childPath_outside hp2)]
        by_cases hex : fsExists st1.fs (childPath fmtDir "slides.pdf") = true
        · rw [if_pos hex, fsGet_fsRemove,
            if_neg (ne_childPath_outside hp2)]
          exact hfs1
        · rw [if_neg hex]
          exact hfs1

theorem convertCase_preserves {env : Env} {casesDir : String} {st : St} {c : CaseSpec}
    {p : String}
    (htmp : strHasPrefix (childPath (childPath casesDir c.id) "_lo_out" ++ "/") p = false)
    (hra : p ≠ childPath (childPath casesDir c.id) "ref.ppt")
    (hrb : p ≠ childPath (childPath casesDir c.id) "ref.pptx")
    (hrender : strHasPrefix (childPath (childPath casesDir c.id) "render" ++ "/") p
      = false) :
    fsGet (stateOf (convertCase env casesDir st c)).fs p = fsGet st.fs p := by
  have hren1 : strHasPrefix
      (childPath (childPath (childPath casesDir c.id) "render") "ppt" ++ "/") p = false :=
    strHasPrefix_extend_false (strHasPrefix_childPath_slash _ _) hrender
  have hren2 : strHasPrefix
      (childPath (childPath (childPath casesDir c.id) "render") "pptx" ++ "/") p = false :=
    strHasPrefix_extend_false (strHasPrefix_childPath_slash _ _) hrender
  have hrm : fsGet (fsRmtree st.fs (childPath (childPath casesDir c.id) "_lo_out")) p
      = fsGet st.fs p := by
    rw [fsGet_fsRmtree, if_neg (by simp [htmp])]
  cases hr : convertCase env casesDir st c with
  | error epair =>
    obtain ⟨e, st'⟩ := epair
    show fsGet st'.fs p = _
    simp only [convertCase, bind, Except.bind] at hr
    split at hr
    · rename_i ep heq
      obtain ⟨e2, s2⟩ := ep
      simp only [Except.error.injEq, Prod.mk.injEq] at hr
      rw [← hr.2]
      have hcp := @convertAndPlace_preserves env
        ({ st with fs := fsRmtree st.fs (childPath (childPath casesDir c.id) "_lo_out") })
        (childPath (childPath casesDir c.id) "author.pptx")
        _ "ppt" _ _ htmp hra
      rw [heq] at hcp
      show fsGet s2.fs p = _
      rw [show fsGet s2.fs p
          = fsGet (fsRmtree st.fs (childPath (childPath casesDir c.id) "_lo_out")) p
        from hcp]
      exact hrm
    · rename_i s1 heq1
      have h1 : fsGet s1.fs p = fsGet st.fs p := by
        have hcp := @convertAndPlace_preserves env
          ({ st with fs := fsRmtree st.fs (childPath (childPath casesDir c.id) "_lo_out") })
          (childPath (childPath casesDir c.id) "author.pptx")
          _ "ppt" _ _ htmp hra
        rw [heq1] at hcp
        exact hcp.trans hrm
      split at hr
      · rename_i ep heq
        obtain ⟨e2, s2⟩ := ep
        simp only [Except.error.injEq, Prod.mk.injEq] at hr
        rw [← hr.2]
        have hcp := @convertAndPlace_preserves env (s1)
          (childPath (childPath casesDir c.id) "ref.ppt")
          _ "pptx" _ _ htmp hrb
        rw [heq] at hcp
        exact hcp.trans h1
      · rename_i s2 heq2
        have h2 : fsGet s2.fs p = fsGet st.fs p := by
          have hcp := @convertAndPlace_preserves env (s1)
            (childPath (childPath casesDir c.id) "ref.ppt")
            _ "pptx" _ _ htmp hrb
          rw [heq2] at hcp
          exact hcp.trans h1
        split at hr
        · rename_i ep heq
          obtain ⟨e2, s3⟩ := ep
          simp only [Except.error.injEq, Prod.mk.injEq] at hr
          rw [← hr.2]
          have hcp := @renderToPngs_preserves env s2
            (childPath (childPath casesDir c.id) "ref.ppt") _ _ _ htmp hren1
          rw [heq] at hcp
          exact hcp.trans h2
        · rename_i s3 heq3
          have h3 : fsGet s3.fs p = fsGet st.fs p := by
            have hcp := @renderToPngs_preserves env s2
              (childPath (childPath casesDir c.id) "ref.ppt") _ _ _ htmp hren1
            rw [heq3] at hcp
            exact hcp.trans h2
          split at hr
          · rename_i ep heq
            obtain ⟨e2, s4⟩ := ep
            simp only [Except.error.injEq, Prod.mk.injEq] at hr
            rw [← hr.2]
            have hcp := @renderToPngs_preserves env s3
              (childPath (childPath casesDir c.id) "ref.pptx") _ _ _ htmp hren2
            rw [heq] at hcp
            exact hcp.trans h3
          · cases hr
  | ok st' =>
    show fsGet st'.fs p = _
    simp only [convertCase, bind, Except.bind] at hr
    split at hr
    · cases hr
    · rename_i s1 heq1
      have h1 : fsGet s1.fs p = fsGet st.fs p := by
        have hcp := @convertAndPlace_preserves env
          ({ st with fs := fsRmtree st.fs (childPath (childPath casesDir c.id) "_lo_out") })
          (childPath (childPath casesDir c.id) "author.pptx")
          _ "ppt" _ _ htmp hra
        rw [heq1] at hcp
        exact hcp.trans hrm
      split at hr
      · cases hr
      · rename_i s2 heq2
        have h2 : fsGet s2.fs p = fsGet st.fs p := by
          have hcp := @convertAndPlace_preserves env (s1)
            (childPath (childPath casesDir c.id) "ref.ppt")
            _ "pptx" _ _ htmp hrb
          rw [heq2] at hcp
          exact hcp.trans h1
        split at hr
        · cases hr
        · rename_i s3 heq3
          have h3 : fsGet s3.fs p = fsGet st.fs p := by
            have hcp := @renderToPngs_preserves env s2
              (childPath (childPath casesDir c.id) "ref.ppt") _ _ _ htmp hren1
            rw [heq3] at hcp
            exact hcp.trans h2
          split at hr
          · cases hr
          · rename_i s4 heq4
            have h4 : fsGet s4.fs p = fsGet st.fs p := by
              have hcp := @renderToPngs_preserves env s3
                (childPath (childPath casesDir c.id) "ref.pptx") _ _ _ htmp hren2
              rw [heq4] at hcp
              exact hcp.trans h3
            simp only [Except.ok.injEq] at hr
            rw [← hr]
            show fsGet (fsRmtree s4.fs _) p = _
            rw [fsGet_fsRmtree, if_neg (by simp [htmp])]
            exact h4

theorem authorCase_preserves {env : Env} {casesDir : String} {st : St} {c : CaseSpec}
    {p : String}
    (ha : p ≠ childPath (childPath casesDir c.id) "author.pptx")
    (hm : p ≠ childPath (childPath casesDir c.id) "meta.json") :
    fsGet (stateOf (authorCase env casesDir st c)).fs p = fsGet st.fs p := by
  by_cases hok : env.buildOk c.id = true
  · rw [authorCase_ok env casesDir st c hok]
    show fsGet (fsWrite (fsWrite _ _ _) _ _) p = _
    rw [fsGet_fsWrite, if_neg hm, fsGet_fsWrite, if_neg ha]
  · rw [authorCase_fail env casesDir st c (by simpa using hok)]
    rfl

theorem authorPhase_preserves {env : Env} {casesDir : String} {p : String} :
    ∀ {specs : List CaseSpec} {st : St},
      (∀ c ∈ specs, p ≠ childPath (childPath casesDir c.id) "author.pptx" ∧
        p ≠ childPath (childPath casesDir c.id) "meta.json") →
      fsGet (stateOf (authorPhase env casesDir specs st)).fs p = fsGet st.fs p := by
  intro specs
  induction specs with
  | nil => intro st _; rfl
  | cons c rest ih =>
    intro st hcond
    obtain ⟨ha, hm⟩ := hcond c (List.mem_cons_self _ _)
    cases hac : authorCase env casesDir st c with
    | error ep =>
      obtain ⟨e, s⟩ := ep
      have hstep : authorPhase env casesDir (c :: rest) st = .error (e, s) := by
        simp only [authorPhase, bind, Except.bind, hac]
      rw [hstep]
      show fsGet s.fs p = _
      have hpr := @authorCase_preserves env casesDir st c p ha hm
      rw [hac] at hpr
      exact hpr
    | ok s =>
      have hstep : authorPhase env casesDir (c :: rest) st
          = authorPhase env casesDir rest s := by
        simp only [authorPhase, bind, Except.bind, hac]
      rw [hstep]
      rw [ih (fun x hx => hcond x (List.mem_cons_of_mem _ hx))]
      have hpr := @authorCase_preserves env casesDir st c p ha hm
      rw [hac] at hpr
      exact hpr

theorem convertPhase_preserves {env : Env} {casesDir : String} {p : String} :
    ∀ {specs : List CaseSpec} {st : St},
      (∀ c ∈ specs,
        strHasPrefix (childPath (childPath casesDir c.id) "_lo_out" ++ "/") p = false ∧
        p ≠ childPath (childPath casesDir c.id) "ref.ppt" ∧
        p ≠ childPath (childPath casesDir c.id) "ref.pptx" ∧
        strHasPrefix (childPath (childPath casesDir c.id) "render" ++ "/") p = false) →
      fsGet (stateOf (convertPhase env casesDir specs st)).fs p = fsGet st.fs p := by
  intro specs
  induction specs with
  | nil => intro st _; rfl
  | cons c rest ih =>
    intro st hcond
    obtain ⟨h1, h2, h3, h4⟩ := hcond c (List.mem_cons_self _ _)
    cases hcc : convertCase env casesDir st c with
    | error ep =>
      obtain ⟨e, s⟩ := ep
      have hstep : convertPhase env casesDir (c :: rest) st = .error (e, s) := by
        simp only [convertPhase, bind, Except.bind, hcc]
      rw [hstep]
      show fsGet s.fs p = _
      have hpr := @convertCase_preserves env casesDir st c p h1 h2 h3 h4
      rw [hcc] at hpr
      exact hpr
    | ok s =>
      have hstep : convertPhase env casesDir (c :: rest) st
          = convertPhase env casesDir rest s := by
        simp only [convertPhase, bind, Except.bind, hcc]
      rw [hstep]
      rw [ih (fun x hx => hcond x (List.mem_cons_of_mem _ hx))]
      have hpr := @convertCase_preserves env casesDir st c p h1 h2 h3 h4
      rw [hcc] at hpr
      exact hpr

theorem mainOn_preserves {env : Env} {root : String} {specs : List CaseSpec} {st : St}
    {p : String}
    (hman : p ≠ childPath root "manifest.json")
    (hcond : ∀ c ∈ specs,
      p ≠ childPath (childPath (childPath root "cases") c.id) "author.pptx" ∧
      p ≠ childPath (childPath (childPath root "cases") c.id) "meta.json" ∧
      strHasPrefix (childPath (childPath (childPath root "cases") c.id) "_lo_out" ++ "/") p
        = false ∧
      p ≠ childPath (childPath (childPath root "cases") c.id) "ref.ppt" ∧
      p ≠ childPath (childPath (childPath root "cases") c.id) "ref.pptx" ∧
      strHasPrefix (childPath (childPath (childPath root "cases") c.id) "render" ++ "/") p
        = false) :
    fsGet (stateOf (mainOn env root specs st)).fs p = fsGet st.fs p := by
  cases hap : authorPhase env (childPath root "cases") specs st with
  | error ep =>
    obtain ⟨e, s⟩ := ep
    have hstep : mainOn env root specs st = .error (e, s) := by
      simp only [mainOn, bind, Except.bind, hap]
    rw [hstep]
    show fsGet s.fs p = _
    have hpr := @authorPhase_preserves env (childPath root "cases") p specs st
       (fun c hc => ⟨(hcond c hc).1, (hcond c hc).2.1⟩)
    rw [hap] at hpr
    exact hpr
  | ok s =>
    have h1 : fsGet s.fs p = fsGet st.fs p := by
      have hpr := @authorPhase_preserves env (childPath root "cases") p specs st
         (fun c hc => ⟨(hcond c hc).1, (hcond c hc).2.1⟩)
      rw [hap] at hpr
      exact hpr
    cases hcp : convertPhase env (childPath root "cases") specs s with
    | error ep =>
      obtain ⟨e, s2⟩ := ep
      have hstep : mainOn env root specs st = .error (e, s2) := by
        simp only [mainOn, bind, Except.bind, hap, hcp]
      rw [hstep]
      show fsGet s2.fs p = _
      have hpr := @convertPhase_preserves env (childPath root "cases") p specs s
        
        (fun c hc => ⟨(hcond c hc).2.2.1, (hcond c hc).2.2.2.1,
          (hcond c hc).2.2.2.2.1, (hcond c hc).2.2.2.2.2⟩)
      rw [hcp] at hpr
      exact hpr.trans h1
    | ok s2 =>
      have h2 : fsGet s2.fs p = fsGet st.fs p := by
        have hpr := @convertPhase_preserves env (childPath root "cases") p specs s
          
          (fun c hc => ⟨(hcond c hc).2.2.1, (hcond c hc).2.2.2.1,
            (hcond c hc).2.2.2.2.1, (hcond c hc).2.2.2.2.2⟩)
        rw [hcp] at hpr
        exact hpr.trans h1
      have hstep : mainOn env root specs st = .ok { s2 with
          fs := fsWrite s2.fs (childPath root "manifest.json")
            ⟨.manifestFile (mkManifest (env.now s2.nowCount) specs), 0⟩,
          trace := s2.trace ++ [.writeManifest (childPath root "manifest.json")],
          nowCount := s2.nowCount + 1,
          manifest := some (mkManifest (env.now s2.nowCount) specs) } := by
        simp only [mainOn, bind, Except.bind, hap, hcp]
      rw [hstep]
      show fsGet (fsWrite s2.fs _ _) p = _
      rw [fsGet_fsWrite, if_neg hman]
      exact h2

theorem mainModel_preserves_untouched (env : Env) (root : String) (fs0 : FS)
    (p : String)
    (hu : untouchedPath root
      (cases (childPath (childPath root "assets") "sample.png")
        (childPath (childPath root "assets") "sample.jpg")) p) :
    fsGet (stateOf (mainModel env root fs0)).fs p = fsGet fs0 p := by
  obtain ⟨hpng, hjpg, hman, hcases⟩ := hu
  show fsGet (stateOf (mainOn env root _ _)).fs p = _
  rw [mainOn_preserves hman (fun c hc => ⟨(hcases c hc).1, (hcases c hc).2.1,
    (hcases c hc).2.2.2.2.1, (hcases c hc).2.2.1, (hcases c hc).2.2.2.1,
    (hcases c hc).2.2.2.2.2⟩)]
  show fsGet (fsWrite (fsWrite fs0 _ _) _ _) p = _
  rw [fsGet_fsWrite, if_neg hjpg, fsGet_fsWrite, if_neg hpng]

set_option maxRecDepth 100000 in
set_option maxHeartbeats 2000000 in
/-- C7 counterexample: a stale file at an unknown name inside a case workspace survives
a complete, fully successful run untouched — the workspace is not created fresh. -/
theorem stale_workspace_file_survives :
    (mainModel envAllOk "R"
      [("R/cases/000_blank/junk.dat", ⟨.bin 99, 0⟩)]).isOk = true ∧
    fsGet (stateOf (mainModel envAllOk "R"
        [("R/cases/000_blank/junk.dat", ⟨.bin 99, 0⟩)])).fs
      "R/cases/000_blank/junk.dat" = some ⟨.bin 99, 0⟩ := by
  constructor
  · decide
  · rw [mainModel_preserves_untouched envAllOk "R" _ _ (by decide)]
    decide

/-- C7 amended: the run deletes or overwrites artifacts only at the fixed locations —
the two shared assets, the manifest, and per case `author.pptx`, `meta.json`,
`ref.ppt`, `ref.pptx`, the `_lo_out` temporary subtree, and the `render` subtree; a file
at any other path (in particular any stale unknown-named file in a case workspace)
survives the run with its content unchanged, so workspace contents are not in general a
pure function of the current case definitions. -/
theorem workspace_only_fixed_artifacts_refreshed
    (env : Env) (root : String) (fs0 : FS) (p : String)
    (hu : untouchedPath root
      (cases (childPath (childPath root "assets") "sample.png")
        (childPath (childPath root "assets") "sample.jpg")) p) :
    fsGet (stateOf (mainModel env root fs0)).fs p = fsGet fs0 p :=
  mainModel_preserves_untouched env root fs0 p hu

/-- C7 amended, witness: a junk file in the first case's workspace keeps its original
lookup result across the whole run. -/
theorem workspace_only_fixed_artifacts_refreshed_witness :
    fsGet (stateOf (mainModel envAllOk "R"
        [("R/cases/000_blank/junk.dat", ⟨.bin 99, 0⟩)])).fs
      "R/cases/000_blank/junk.dat"
      = fsGet [("R/cases/000_blank/junk.dat", ⟨.bin 99, 0⟩)]
        "R/cases/000_blank/junk.dat" :=
  workspace_only_fixed_artifacts_refreshed envAllOk "R"
    [("R/cases/000_blank/junk.dat", ⟨.bin 99, 0⟩)]
    "R/cases/000_blank/junk.dat" (by decide)

/-! ## Decimal formatting lemmas -/

theorem digitVal_digitChar {d : Nat} (h : d < 10) : digitVal (digitChar d) = d := by
  interval_cases d <;> rfl

theorem digitsValBE_append_single (xs : List Char) (c : Char) :
    digitsValBE (xs ++ [c]) = digitsValBE xs * 10 + digitVal c := by
  induction xs with
  | nil => simp [digitsValBE]
  | cons x xs ih =>
    rw [List.cons_append]
    show digitVal x * 10 ^ (xs ++ [c]).length + digitsValBE (xs ++ [c])
        = (digitVal x * 10 ^ xs.length + digitsValBE xs) * 10 + digitVal c
    rw [ih, List.length_append]
    show digitVal x * 10 ^ (xs.length + 1) + (digitsValBE xs * 10 + digitVal c) = _
    ring

theorem digitsValBE_revMap {L : List Nat} (h : ∀ d ∈ L, d < 10) :
    digitsValBE ((L.map digitChar).reverse) = Nat.ofDigits 10 L := by
  induction L with
  | nil => simp [digitsValBE, Nat.ofDigits]
  | cons d rest ih =>
    rw [List.map_cons, List.reverse_cons, digitsValBE_append_single,
      ih (fun x hx => h x (List.mem_cons_of_mem _ hx)), Nat.ofDigits_cons,
      digitVal_digitChar (h d (List.mem_cons_self _ _))]
    ring

theorem decDigitsAux_lt10 : ∀ fuel n, ∀ d ∈ decDigitsAux fuel n, d < 10
  | _, 0 => by simp [decDigitsAux]
  | 0, _ + 1 => by simp [decDigitsAux]
  | fuel + 1, n + 1 => by
    intro d hd
    simp only [decDigitsAux] at hd
    rcases List.mem_cons.mp hd with rfl | hd
    · exact Nat.mod_lt _ (by norm_num)
    · exact decDigitsAux_lt10 fuel ((n + 1) / 10) d hd

theorem ofDigits_decDigitsAux : ∀ fuel n, n ≤ fuel →
    Nat.ofDigits 10 (decDigitsAux fuel n) = n
  | _, 0, _ => by simp [decDigitsAux, Nat.ofDigits]
  | 0, n + 1, h => by omega
  | fuel + 1, n + 1, h => by
    have hdiv : (n + 1) / 10 ≤ fuel := by
      have := Nat.div_lt_self (Nat.succ_pos n) (by norm_num : 1 < 10)
      omega
    simp only [decDigitsAux, Nat.ofDigits_cons,
      ofDigits_decDigitsAux fuel ((n + 1) / 10) hdiv]
    omega

theorem foldl_digits_eq (cs : List Char) :
    ∀ a, cs.foldl (fun a c => a * 10 + digitVal c) a
      = a * 10 ^ cs.length + digitsValBE cs := by
  induction cs with
  | nil => intro a; simp [digitsValBE]
  | cons c cs ih =>
    intro a
    simp only [List.foldl_cons, digitsValBE, ih, List.length_cons]
    ring

theorem unpadVal_replicate_append (k : Nat) (ds : List Char) :
    unpadVal (List.replicate k '0' ++ ds) = unpadVal ds := by
  unfold unpadVal
  rw [List.foldl_append]
  have hz : List.foldl (fun a c => a * 10 + digitVal c) 0 (List.replicate k '0') = 0 := by
    induction k with
    | zero => rfl
    | succ k ih => simpa [List.replicate_succ, digitVal] using ih
  rw [hz]

theorem unpadVal_pad3 (n : Nat) : unpadVal (pad3 n).toList = n := by
  show unpadVal (List.replicate (3 - (decChars n).length) '0' ++ decChars n) = n
  rw [unpadVal_replicate_append]
  rw [show unpadVal (decChars n) = digitsValBE (decChars n) from by
    rw [unpadVal, foldl_digits_eq]
    simp]
  unfold decChars
  rw [digitsValBE_revMap (decDigitsAux_lt10 n n)]
  exact ofDigits_decDigitsAux n n le_rfl

theorem pad3_inj {m n : Nat} (h : pad3 m = pad3 n) : m = n := by
  have h2 := congrArg (fun s => unpadVal s.toList) h
  simp only [unpadVal_pad3] at h2
  exact h2

/-! ## Lexicographic order lemmas -/

theorem charsLt_irrefl : ∀ l : List Char, charsLt l l = false
  | [] => rfl
  | c :: cs => by simp [charsLt, charsLt_irrefl cs]

theorem charsLt_asymm : ∀ a b : List Char, charsLt a b = true → charsLt b a = false
  | [], [] => by simp [charsLt]
  | [], _ :: _ => fun _ => rfl
  | _ :: _, [] => by simp [charsLt]
  | a :: as, b :: bs => by
    intro h
    simp only [charsLt] at h ⊢
    by_cases hab : a < b
    · rw [if_neg (lt_asymm hab), if_pos hab]
    · by_cases hba : b < a
      · rw [if_neg hab, if_pos hba] at h
        cases h
      · rw [if_neg hab, if_neg hba] at h
        rw [if_neg hba, if_neg hab]
        exact charsLt_asymm as bs h

theorem charsLt_connex : ∀ a b : List Char, charsLt a b = false → charsLt b a = false →
    a = b
  | [], [], _, _ => rfl
  | [], _ :: _, h, _ => by simp [charsLt] at h
  | _ :: _, [], _, h => by simp [charsLt] at h
  | a :: as, b :: bs, h1, h2 => by
    simp only [charsLt] at h1 h2
    by_cases hab : a < b
    · rw [if_pos hab] at h1
      cases h1
    · by_cases hba : b < a
      · rw [if_pos hba] at h2
        cases h2
      · rw [if_neg hab, if_neg hba] at h1
        rw [if_neg hba, if_neg hab] at h2
        have hchar : a = b := le_antisymm (le_of_not_lt hba) (le_of_not_lt hab)
        rw [hchar, charsLt_connex as bs h1 h2]

theorem charsLt_append_left : ∀ (pre a b : List Char),
    charsLt (pre ++ a) (pre ++ b) = charsLt a b
  | [], _, _ => rfl
  | c :: pre, a, b => by
    simp [charsLt, lt_irrefl, charsLt_append_left pre a b]

theorem charsLt_append_of_len : ∀ (a b x y : List Char), a.length = b.length →
    charsLt a b = true → charsLt (a ++ x) (b ++ y) = true
  | [], [], _, _, _, h => by simp [charsLt] at h
  | [], _ :: _, _, _, hlen, _ => by simp at hlen
  | _ :: _, [], _, _, hlen, _ => by simp at hlen
  | a :: as, b :: bs, x, y, hlen, h => by
    simp only [charsLt, List.cons_append] at h ⊢
    by_cases hab : a < b
    · rw [if_pos hab]
    · by_cases hba : b < a
      · rw [if_neg hab, if_pos hba] at h
        cases h
      · rw [if_neg hab, if_neg hba] at h ⊢
        exact charsLt_append_of_len as bs x y (by simpa using hlen) h

theorem strLt_irrefl (a : String) : strLt a a = false := charsLt_irrefl _

theorem strLt_asymm {a b : String} (h : strLt a b = true) : strLt b a = false :=
  charsLt_asymm _ _ h

theorem strLt_connex {a b : String} (h1 : strLt a b = false) (h2 : strLt b a = false) :
    a = b :=
  String.ext (charsLt_connex _ _ h1 h2)

/-! ## Permutation and uniqueness of the stable sort -/

theorem perm_insStable (lt : α → α → Bool) (a : α) :
    ∀ l : List α, List.Perm (insStable lt a l) (a :: l)
  | [] => List.Perm.refl _
  | b :: bs => by
    simp only [insStable]
    split
    · exact ((perm_insStable lt a bs).cons b).trans (List.Perm.swap a b bs)
    · exact List.Perm.refl _

theorem perm_stableSort (lt : α → α → Bool) :
    ∀ l : List α, List.Perm (stableSort lt l) l
  | [] => List.Perm.refl _
  | b :: bs => by
    rw [stableSort_cons]
    exact (perm_insStable lt b _).trans ((perm_stableSort lt bs).cons b)

theorem sorted_nodup_eq {lt : α → α → Bool}
    (hasym : ∀ x y, lt x y = true → lt y x = false) :
    ∀ (l1 l2 : List α), l1.Pairwise (fun x y => lt x y = true) →
      l2.Pairwise (fun x y => lt x y = true) →
      (∀ x, x ∈ l1 ↔ x ∈ l2) → l1 = l2
  | [], [], _, _, _ => rfl
  | [], b :: bs, _, _, hm => by
    have := (hm b).mpr (List.mem_cons_self _ _)
    simp at this
  | a :: as, [], _, _, hm => by
    have := (hm a).mp (List.mem_cons_self _ _)
    simp at this
  | a :: as, b :: bs, h1, h2, hm => by
    have hab : a = b := by
      have hainb := (hm a).mp (List.mem_cons_self _ _)
      have hbina := (hm b).mpr (List.mem_cons_self _ _)
      rcases List.mem_cons.mp hainb with heq | hain
      · exact heq
      · rcases List.mem_cons.mp hbina with heq | hbin
        · exact heq.symm
        · have h1' := (List.pairwise_cons.mp h1).1 b hbin
          have h2' := (List.pairwise_cons.mp h2).1 a hain
          rw [hasym _ _ h1'] at h2'
          cases h2'
    subst hab
    congr 1
    apply sorted_nodup_eq hasym as bs (List.pairwise_cons.mp h1).2
      (List.pairwise_cons.mp h2).2
    intro x
    constructor
    · intro hx
      have hx2 := (hm x).mp (List.mem_cons_of_mem _ hx)
      rcases List.mem_cons.mp hx2 with rfl | h
      · have hlt := (List.pairwise_cons.mp h1).1 x hx
        have := hasym _ _ hlt
        rw [hlt] at this
        cases this
      · exact h
    · intro hx
      have hx2 := (hm x).mpr (List.mem_cons_of_mem _ hx)
      rcases List.mem_cons.mp hx2 with rfl | h
      · have hlt := (List.pairwise_cons.mp h2).1 x hx
        have := hasym _ _ hlt
        rw [hlt] at this
        cases this
      · exact h

theorem nodup_of_pairwise_strLt {l : List String}
    (h : l.Pairwise (fun x y => strLt x y = true)) : l.Nodup := by
  apply List.Pairwise.imp _ h
  intro a b hab heq
  rw [heq, strLt_irrefl] at hab
  cases hab

theorem charsLt_trans : ∀ a b c : List Char, charsLt a b = true → charsLt b c = true →
    charsLt a c = true
  | [], [], _, h, _ => by simp [charsLt] at h
  | [], _ :: _, [], _, h => by simp [charsLt] at h
  | [], _ :: _, _ :: _, _, _ => rfl
  | _ :: _, [], _, h, _ => by simp [charsLt] at h
  | _ :: _, _ :: _, [], _, h => by simp [charsLt] at h
  | a :: as, b :: bs, c :: cs, h1, h2 => by
    simp only [charsLt] at h1 h2 ⊢
    by_cases hab : a < b
    · by_cases hbc : b < c
      · rw [if_pos (lt_trans hab hbc)]
      · by_cases hcb : c < b
        · rw [if_neg hbc, if_pos hcb] at h2
          cases h2
        · have hbceq : b = c := le_antisymm (le_of_not_lt hcb) (le_of_not_lt hbc)
          subst hbceq
          rw [if_pos hab]
    · by_cases hba : b < a
      · rw [if_neg hab, if_pos hba] at h1
        cases h1
      · have habeq : a = b := le_antisymm (le_of_not_lt hba) (le_of_not_lt hab)
        subst habeq
        rw [if_neg (lt_irrefl a), if_neg (lt_irrefl a)] at h1
        by_cases hac : a < c
        · rw [if_pos hac]
        · by_cases hca : c < a
          · rw [if_neg hac, if_pos hca] at h2
            cases h2
          · rw [if_neg hac, if_neg hca] at h2 ⊢
            exact charsLt_trans as bs cs h1 h2

theorem strLt_neg_trans : ∀ x y z : String, strLt x y = false → strLt y z = false →
    strLt x z = false := by
  intro x y z h1 h2
  cases hxz : strLt x z with
  | false => rfl
  | true =>
    exfalso
    by_cases hyx : strLt y x = true
    · by_cases hzy : strLt z y = true
      · have hzx : strLt z x = true := charsLt_trans _ _ _ hzy hyx
        rw [strLt_asymm hxz] at hzx
        cases hzx
      · have hyz : y = z := strLt_connex h2 (by simpa using hzy)
        subst hyz
        rw [strLt_asymm hxz] at hyx
        cases hyx
    · have hxy : x = y := strLt_connex h1 (by simpa using hyx)
      subst hxy
      rw [h2] at hxz
      cases hxz

theorem stableSort_strLt_pairwise {l : List String} (hnd : l.Nodup) :
    (stableSort strLt l).Pairwise (fun x y => strLt x y = true) := by
  have hpw := pairwise_stableSort strLt_neg_trans (fun x y h => strLt_asymm h) l
  have hnd2 : (stableSort strLt l).Nodup := (perm_stableSort strLt l).nodup_iff.mpr hnd
  have hand := List.Pairwise.and hpw hnd2
  apply List.Pairwise.imp _ hand
  rintro a b ⟨hba, hne⟩
  cases hab : strLt a b with
  | true => rfl
  | false => exact absurd (strLt_connex hab hba) hne

/-! ## Names produced by the rasterization pipeline -/

theorem digitChar_ne_slash (d : Nat) : digitChar d ≠ '/' := by
  unfold digitChar
  repeat' split
  all_goals decide

theorem pad3_toList (n : Nat) :
    (pad3 n).toList = List.replicate (3 - (decChars n).length) '0' ++ decChars n := rfl

theorem mem_decChars_digit {c : Char} {n : Nat} (h : c ∈ decChars n) :
    ∃ d, c = digitChar d := by
  unfold decChars at h
  rw [List.mem_reverse] at h
  obtain ⟨d, _, rfl⟩ := List.mem_map.mp h
  exact ⟨d, rfl⟩

theorem slashFree_pad3 (n : Nat) : slashFree (pad3 n) = true := by
  apply slashFree_of_forall
  intro x hx
  rw [pad3_toList] at hx
  rcases List.mem_append.mp hx with hx | hx
  · rw [List.eq_of_mem_replicate hx]
    decide
  · obtain ⟨d, rfl⟩ := mem_decChars_digit hx
    exact digitChar_ne_slash d

theorem slashFree_append (a b : String) :
    slashFree (a ++ b) = (slashFree a && slashFree b) := by
  simp [slashFree, toList_append, List.all_append]

theorem slashFree_slideName (i : Nat) : slashFree (slideName i) = true := by
  unfold slideName
  rw [slashFree_append, slashFree_append, slashFree_pad3]
  decide

theorem slashFree_rawSlideName {s : String} (h : slashFree s = true) :
    slashFree (rawSlideName s) = true := by
  unfold rawSlideName
  rw [slashFree_append, slashFree_append, h]
  decide

theorem childPath_right_inj {d n1 n2 : String} (h : childPath d n1 = childPath d n2) :
    n1 = n2 := by
  have h2 : (childPath d n1).toList = (childPath d n2).toList := by rw [h]
  rw [childPath_toList, childPath_toList] at h2
  have h3 := List.append_cancel_left h2
  simp only [List.cons.injEq, true_and] at h3
  exact String.ext h3

theorem slideName_toList (i : Nat) :
    (slideName i).toList
      = 's' :: 'l' :: 'i' :: 'd' :: 'e' :: '-' :: ((pad3 i).toList ++ ".png".toList) := by
  show (("slide-" ++ pad3 i) ++ ".png").toList = _
  rw [toList_append, toList_append]
  rw [show "slide-".toList = ['s', 'l', 'i', 'd', 'e', '-'] from by decide]
  simp

theorem rawSlideName_toList (s : String) :
    (rawSlideName s).toList
      = '_' :: '_' :: 'r' :: 'a' :: 'w' :: '_' :: 's' :: 'l' :: 'i' :: 'd' :: 'e' :: '-'
        :: (s.toList ++ ".png".toList) := by
  show (("__raw_slide-" ++ s) ++ ".png").toList = _
  rw [toList_append, toList_append]
  rw [show "__raw_slide-".toList
      = ['_', '_', 'r', 'a', 'w', '_', 's', 'l', 'i', 'd', 'e', '-'] from by decide]
  simp

theorem slideName_inj {i j : Nat} (h : slideName i = slideName j) : i = j := by
  have h2 : (slideName i).toList = (slideName j).toList := by rw [h]
  rw [slideName_toList, slideName_toList] at h2
  simp only [List.cons.injEq, true_and] at h2
  have h3 := (List.append_inj' h2 rfl).1
  exact pad3_inj (String.ext h3)

theorem rawSlideName_inj {s t : String} (h : rawSlideName s = rawSlideName t) : s = t := by
  have h2 : (rawSlideName s).toList = (rawSlideName t).toList := by rw [h]
  rw [rawSlideName_toList, rawSlideName_toList] at h2
  simp only [List.cons.injEq, true_and] at h2
  exact String.ext (List.append_inj' h2 rfl).1

theorem rawSlideName_ne_slideName (s : String) (i : Nat) : rawSlideName s ≠ slideName i := by
  intro h
  have h2 : (rawSlideName s).toList = (slideName i).toList := by rw [h]
  rw [rawSlideName_toList, slideName_toList] at h2
  simp at h2

theorem slideName_ne_slides (i : Nat) : slideName i ≠ "slides.pdf" := by
  intro h
  have h2 : (slideName i).toList = "slides.pdf".toList := by rw [h]
  rw [slideName_toList] at h2
  rw [show "slides.pdf".toList
      = ['s', 'l', 'i', 'd', 'e', 's', '.', 'p', 'd', 'f'] from by decide] at h2
  simp at h2

theorem rawSlideName_ne_slides (s : String) : rawSlideName s ≠ "slides.pdf" := by
  intro h
  have h2 : (rawSlideName s).toList = "slides.pdf".toList := by rw [h]
  rw [rawSlideName_toList] at h2
  rw [show "slides.pdf".toList
      = ['s', 'l', 'i', 'd', 'e', 's', '.', 'p', 'd', 'f'] from by decide] at h2
  simp at h2

theorem fnmatch_head_ne {p c : Char} {ps cs : List Char}
    (h1 : p ≠ '*') (h2 : p ≠ '?') (h3 : p ≠ c) :
    fnmatchChars (p :: ps) (c :: cs) = false := by
  simp [fnmatchChars, h1, h2, h3]

theorem fnmatch_literal_left : ∀ (lit : List Char), (∀ c ∈ lit, isMagicChar c = false) →
    ∀ (ps cs : List Char), fnmatchChars (lit ++ ps) (lit ++ cs) = fnmatchChars ps cs
  | [], _, _, _ => rfl
  | l :: lit, h, ps, cs => by
    have hl := h l (List.mem_cons_self _ _)
    have hs : l ≠ '*' := by intro e; subst e; simp [isMagicChar] at hl
    have hq : l ≠ '?' := by intro e; subst e; simp [isMagicChar] at hl
    simp only [List.cons_append, List.append_eq, fnmatchChars, if_neg hs, if_neg hq]
    rw [fnmatch_literal_left lit (fun c hc => h c (List.mem_cons_of_mem _ hc)) ps cs]
    simp

theorem globMatch_slide_raw (s : String) :
    globMatch "slide-*.png" (rawSlideName s) = false := by
  unfold globMatch
  rw [rawSlideName_toList]
  rw [show "slide-*.png".toList = 's' :: "lide-*.png".toList from by decide]
  rw [fnmatch_head_ne (by decide) (by decide) (by decide)]
  simp

theorem globMatch_raw_slide (i : Nat) :
    globMatch "__raw_slide-*.png" (slideName i) = false := by
  unfold globMatch
  rw [slideName_toList]
  rw [show "__raw_slide-*.png".toList = '_' :: "_raw_slide-*.png".toList from by decide]
  rw [fnmatch_head_ne (by decide) (by decide) (by decide)]
  simp

theorem globMatch_raw_raw (s : String) :
    globMatch "__raw_slide-*.png" (rawSlideName s) = true := by
  unfold globMatch
  rw [rawSlideName_toList]
  rw [show "__raw_slide-*.png".toList
      = ['_', '_', 'r', 'a', 'w', '_', 's', 'l', 'i', 'd', 'e', '-'] ++ '*' :: ".png".toList
      from by decide]
  rw [show '_' :: '_' :: 'r' :: 'a' :: 'w' :: '_' :: 's' :: 'l' :: 'i' :: 'd' :: 'e' :: '-'
      :: (s.toList ++ ".png".toList)
      = ['_', '_', 'r', 'a', 'w', '_', 's', 'l', 'i', 'd', 'e', '-']
        ++ (s.toList ++ ".png".toList) from by simp]
  rw [fnmatch_literal_left _ (by decide) _ _]
  rw [(fnmatch_star_literal (by decide)).mpr (List.suffix_append _ _)]
  simp [isHiddenChars]

theorem globMatch_slide_slides : globMatch "slide-*.png" "slides.pdf" = false := by decide

theorem globMatch_raw_slides : globMatch "__raw_slide-*.png" "slides.pdf" = false := by
  decide

theorem strLt_childPath_raw {s t : String} (d : String)
    (hlen : s.toList.length = t.toList.length) (h : strLt s t = true) :
    strLt (childPath d (rawSlideName s)) (childPath d (rawSlideName t)) = true := by
  unfold strLt
  rw [childPath_toList, childPath_toList, rawSlideName_toList, rawSlideName_toList]
  have hs : ∀ u : List Char, d.toList ++ '/' :: '_' :: '_' :: 'r' :: 'a' :: 'w' :: '_'
      :: 's' :: 'l' :: 'i' :: 'd' :: 'e' :: '-' :: (u ++ ".png".toList)
      = (d.toList ++ ['/', '_', '_', 'r', 'a', 'w', '_', 's', 'l', 'i', 'd', 'e', '-'])
        ++ (u ++ ".png".toList) := by
    intro u
    simp
  rw [hs s.toList, hs t.toList, charsLt_append_left]
  exact charsLt_append_of_len _ _ _ _ hlen h

/-! ## Further lookup lemmas for the filesystem model -/

theorem fsGet_eq_some_mem {fs : FS} {p : String} {d : FNode}
    (h : fsGet fs p = some d) : ∃ e, e ∈ fs ∧ e.1 = p ∧ e.2 = d := by
  unfold fsGet at h
  cases hf : fs.find? (fun e => e.1 = p) with
  | none => rw [hf] at h; cases h
  | some e =>
    rw [hf] at h
    simp only [Option.some.injEq] at h
    have hm := List.mem_of_find?_eq_some hf
    have hp := List.find?_some hf
    simp only [decide_eq_true_eq] at hp
    exact ⟨e, hm, hp, h⟩

theorem fsGet_isSome_of_mem {fs : FS} {e : String × FNode} (h : e ∈ fs) :
    (fsGet fs e.1).isSome = true := by
  unfold fsGet
  cases hf : fs.find? (fun x => x.1 = e.1) with
  | some x => rfl
  | none =>
    have := List.find?_eq_none.mp hf e h
    simp at this

theorem fsGet_eq_some_of_mem_nodup {fs : FS} {p : String} {d : FNode}
    (hnd : (fs.map Prod.fst).Nodup) (hm : (p, d) ∈ fs) : fsGet fs p = some d := by
  induction fs with
  | nil => cases hm
  | cons e rest ih =>
    rw [fsGet_cons]
    by_cases hep : e.1 = p
    · rw [if_pos hep]
      rcases List.mem_cons.mp hm with he | hm2
      · rw [← he]
      · exfalso
        have hmem : p ∈ rest.map Prod.fst := List.mem_map_of_mem Prod.fst hm2
        rw [← hep] at hmem
        exact (List.nodup_cons.mp hnd).1 hmem
    · rw [if_neg hep]
      rcases List.mem_cons.mp hm with he | hm2
      · exact absurd (congrArg Prod.fst he).symm hep
      · exact ih (List.nodup_cons.mp hnd).2 hm2

theorem fsGet_fsMove_dst {fs : FS} {src dst : String} {d : FNode}
    (h : fsGet fs src = some d) : fsGet (fsMove fs src dst) dst = some d := by
  unfold fsMove
  rw [h, fsGet_fsWrite, if_pos rfl]

theorem fsGet_fsMove_isSome {fs : FS} {src dst q : String}
    (h : (fsGet (fsMove fs src dst) q).isSome = true) :
    q = dst ∨ (fsGet fs q).isSome = true := by
  by_cases hd : q = dst
  · exact Or.inl hd
  · right
    by_cases hs : q = src
    · subst hs
      unfold fsMove at h
      cases hg : fsGet fs q with
      | none =>
        simp only [hg] at h
        exact h
      | some d0 =>
        simp only [hg] at h
        rw [fsGet_fsWrite, if_neg hd, fsGet_fsRemove, if_pos rfl] at h
        cases h
    · rw [fsGet_fsMove_other fs src dst q hs hd] at h
      exact h

theorem mem_fsRemoveGlob_not_match {fs : FS} {dir pat nm : String} {en : String × FNode}
    (hm : en ∈ fsRemoveGlob fs dir pat) (hsp : splitPath en.1 = some (dir, nm)) :
    globMatch pat nm = false := by
  unfold fsRemoveGlob fsFilterP at hm
  have hp := (List.mem_filter.mp hm).2
  simp only [hsp] at hp
  simpa using hp

theorem mem_dirEntries {fs : FS} {dir : String} {e' : DirEntry} :
    e' ∈ dirEntries fs dir
      ↔ ∃ en, en ∈ fs ∧ splitPath en.1 = some (dir, e'.name) ∧ en.2 = e'.node := by
  unfold dirEntries
  rw [List.mem_filterMap]
  constructor
  · rintro ⟨en, hm, hf⟩
    cases hsp : splitPath en.1 with
    | none => rw [hsp] at hf; cases hf
    | some dn =>
      obtain ⟨d0, n0⟩ := dn
      simp only [hsp] at hf
      by_cases hd : d0 = dir
      · rw [if_pos hd] at hf
        simp only [Option.some.injEq] at hf
        subst hf
        subst hd
        exact ⟨en, hm, hsp, rfl⟩
      · rw [if_neg hd] at hf
        cases hf
  · rintro ⟨en, hm, hsp, hnode⟩
    refine ⟨en, hm, ?_⟩
    simp only [hsp]
    rw [if_pos trivial, hnode]

theorem fsGet_writeAll_cases {fs : FS} {outdir : String}
    {created : List (String × FNode)} {p : String}
    (h : (fsGet (created.foldl
      (fun fs e => fsWrite fs (childPath outdir e.1) e.2) fs) p).isSome = true) :
    (∃ e ∈ created, p = childPath outdir e.1) ∨ (fsGet fs p).isSome = true := by
  induction created generalizing fs with
  | nil => exact Or.inr h
  | cons e rest ih =>
    rw [List.foldl_cons] at h
    rcases ih h with h2 | h2
    · obtain ⟨e2, hm, hp⟩ := h2
      exact Or.inl ⟨e2, List.mem_cons_of_mem _ hm, hp⟩
    · rw [fsGet_fsWrite] at h2
      by_cases hp : p = childPath outdir e.1
      · exact Or.inl ⟨e, List.mem_cons_self _ _, hp⟩
      · rw [if_neg hp] at h2
        exact Or.inr h2

/-! ## Enumeration helpers (`enumerate(...)` in `pdftoppm_png`) -/

theorem mem_enumFrom_getD : ∀ (L : List String) (j i : Nat), i < L.length →
    (j + i, L.getD i "") ∈ L.enumFrom j
  | [], _, i, h => absurd h (by simp)
  | a :: L, j, 0, _ => by simp [List.enumFrom]
  | a :: L, j, i + 1, h => by
    have hrec := mem_enumFrom_getD L (j + 1) i (by simpa using h)
    simp only [List.enumFrom]
    rw [show j + (i + 1) = (j + 1) + i from by omega]
    exact List.mem_cons_of_mem _ hrec

theorem mem_enum_getD {L : List String} {i : Nat} (hi : i < L.length) :
    (i, L.getD i "") ∈ L.enum := by
  show (i, L.getD i "") ∈ L.enumFrom 0
  have := mem_enumFrom_getD L 0 i hi
  simpa using this

theorem snd_mem_of_mem_enumFrom : ∀ (L : List String) (j : Nat) (e : Nat × String),
    e ∈ L.enumFrom j → e.2 ∈ L
  | [], _, _, h => absurd h (by simp)
  | a :: L, j, e, h => by
    simp only [List.enumFrom] at h
    rcases List.mem_cons.mp h with rfl | h
    · exact List.mem_cons_self _ _
    · exact List.mem_cons_of_mem _ (snd_mem_of_mem_enumFrom L (j + 1) e h)

theorem snd_mem_of_mem_enum {L : List String} {e : Nat × String} (h : e ∈ L.enum) :
    e.2 ∈ L :=
  snd_mem_of_mem_enumFrom L 0 e h

/-! ## The page-file write loop of `pdftoppm_png` -/

theorem mem_ppm_fold (env : Env) (k : Nat) (dir : String) :
    ∀ (l : List (Nat × String)) (fs : FS) (en : String × FNode),
      en ∈ l.foldl (fun fs e =>
        fsWrite fs (childPath dir (rawSlideName e.2)) ⟨.bin (env.ppmContent k e.1), 0⟩) fs →
      (∃ e ∈ l, en = (childPath dir (rawSlideName e.2),
        (⟨.bin (env.ppmContent k e.1), 0⟩ : FNode))) ∨ en ∈ fs
  | [], _, _, h => Or.inr h
  | e :: rest, fs, en, h => by
    rcases mem_ppm_fold env k dir rest _ en h with h2 | h2
    · obtain ⟨e2, hm, hp⟩ := h2
      exact Or.inl ⟨e2, List.mem_cons_of_mem _ hm, hp⟩
    · unfold fsWrite fsRemove fsFilterP at h2
      rcases List.mem_cons.mp h2 with he | h3
      · exact Or.inl ⟨e, List.mem_cons_self _ _, he⟩
      · exact Or.inr (List.mem_filter.mp h3).1

theorem fsGet_ppm_fold_other (env : Env) (k : Nat) (dir : String) :
    ∀ (l : List (Nat × String)) (fs : FS) (q : String),
      (∀ e ∈ l, q ≠ childPath dir (rawSlideName e.2)) →
      fsGet (l.foldl (fun fs e =>
        fsWrite fs (childPath dir (rawSlideName e.2)) ⟨.bin (env.ppmContent k e.1), 0⟩) fs) q
        = fsGet fs q
  | [], _, _, _ => rfl
  | e :: rest, fs, q, hne => by
    have hrec := fsGet_ppm_fold_other env k dir rest
      (fsWrite fs (childPath dir (rawSlideName e.2)) ⟨.bin (env.ppmContent k e.1), 0⟩) q
      (fun x hx => hne x (List.mem_cons_of_mem _ hx))
    rw [List.foldl_cons, hrec, fsGet_fsWrite, if_neg (hne e (List.mem_cons_self _ _))]

theorem fsGet_ppm_fold_cases (env : Env) (k : Nat) (dir : String) :
    ∀ (l : List (Nat × String)) (fs : FS) (q : String),
      (fsGet (l.foldl (fun fs e =>
        fsWrite fs (childPath dir (rawSlideName e.2))
          ⟨.bin (env.ppmContent k e.1), 0⟩) fs) q).isSome = true →
      (∃ e ∈ l, q = childPath dir (rawSlideName e.2)) ∨ (fsGet fs q).isSome = true
  | [], _, _, h => Or.inr h
  | e :: rest, fs, q, h => by
    rw [List.foldl_cons] at h
    rcases fsGet_ppm_fold_cases env k dir rest _ q h with h2 | h2
    · obtain ⟨e2, hm, hp⟩ := h2
      exact Or.inl ⟨e2, List.mem_cons_of_mem _ hm, hp⟩
    · rw [fsGet_fsWrite] at h2
      by_cases hp : q = childPath dir (rawSlideName e.2)
      · exact Or.inl ⟨e, List.mem_cons_self _ _, hp⟩
      · rw [if_neg hp] at h2
        exact Or.inr h2

theorem fsGet_ppm_fold_mem (env : Env) (k : Nat) (dir : String) :
    ∀ (l : List (Nat × String)), ∀ (i : Nat) (s : String), (i, s) ∈ l →
      (l.map Prod.snd).Nodup → ∀ fs : FS,
      fsGet (l.foldl (fun fs e =>
        fsWrite fs (childPath dir (rawSlideName e.2)) ⟨.bin (env.ppmContent k e.1), 0⟩) fs)
        (childPath dir (rawSlideName s))
        = some ⟨.bin (env.ppmContent k i), 0⟩ := by
  intro l
  induction l using List.reverseRecOn with
  | nil =>
    intro i s hm
    cases hm
  | append_singleton rest e ih =>
    intro i s hm hnd fs
    rw [List.foldl_append, List.foldl_cons, List.foldl_nil]
    rw [List.map_append] at hnd
    rcases List.mem_append.mp hm with hm2 | hm2
    · have hsne : s ≠ e.2 := by
        intro he
        have h1 : s ∈ rest.map Prod.snd := List.mem_map_of_mem Prod.snd hm2
        have h2 : s ∈ [e.2] := by rw [he]; exact List.mem_singleton.mpr rfl
        exact (List.nodup_append.mp hnd).2.2 h1 h2
      rw [fsGet_fsWrite, if_neg (fun he => hsne (rawSlideName_inj (childPath_right_inj he)))]
      exact ih i s hm2 (List.nodup_append.mp hnd).1 fs
    · have he : e = (i, s) := (List.mem_singleton.mp hm2).symm
      subst he
      rw [fsGet_fsWrite, if_pos rfl]

theorem ppm_fold_glob (env : Env) (k : Nat) (dir : String) :
    ∀ (l : List (Nat × String)),
      (∀ e ∈ l, slashFree e.2 = true) →
      (l.map Prod.snd).Nodup →
      ∀ fs : FS,
      (∀ en ∈ fs, ∀ nm, splitPath en.1 = some (dir, nm) →
        globMatch "__raw_slide-*.png" nm = false) →
      globDir (l.foldl (fun fs e =>
        fsWrite fs (childPath dir (rawSlideName e.2)) ⟨.bin (env.ppmContent k e.1), 0⟩) fs)
        dir "__raw_slide-*.png"
      = l.reverse.map (fun e =>
          ⟨rawSlideName e.2, ⟨.bin (env.ppmContent k e.1), 0⟩⟩) := by
  intro l
  induction l using List.reverseRecOn with
  | nil =>
    intro _ _ fs hfs
    simp only [List.foldl_nil, List.reverse_nil, List.map_nil]
    unfold globDir
    apply List.filter_eq_nil.mpr
    intro e' he'
    obtain ⟨en, hmem, hsp, _⟩ := mem_dirEntries.mp he'
    rw [hfs en hmem e'.name hsp]
    simp
  | append_singleton rest e ih =>
    intro hsf hnd fs hfs
    rw [List.foldl_append, List.foldl_cons, List.foldl_nil]
    rw [List.map_append] at hnd
    have hX := ih (fun x hx => hsf x (List.mem_append_left _ hx))
      (List.nodup_append.mp hnd).1 fs hfs
    have hsfe : slashFree e.2 = true :=
      hsf e (List.mem_append_right _ (List.mem_singleton.mpr rfl))
    have hfresh : ∀ en ∈ rest.foldl (fun fs e =>
        fsWrite fs (childPath dir (rawSlideName e.2)) ⟨.bin (env.ppmContent k e.1), 0⟩) fs,
        en.1 ≠ childPath dir (rawSlideName e.2) := by
      intro en hen he
      rcases mem_ppm_fold env k dir rest fs en hen with ⟨e2, hm2, hp2⟩ | hm2
      · have hss : e2.2 = e.2 := by
          apply rawSlideName_inj
          apply childPath_right_inj
          rw [← he, hp2]
        have h1 : e2.2 ∈ rest.map Prod.snd := List.mem_map_of_mem Prod.snd hm2
        have h2 : e2.2 ∈ [e.2] := by rw [hss]; exact List.mem_singleton.mpr rfl
        exact (List.nodup_append.mp hnd).2.2 h1 h2
      · have hsp : splitPath en.1 = some (dir, rawSlideName e.2) := by
          rw [he]
          exact splitPath_childPath _ _ (slashFree_rawSlideName hsfe)
        have hc := hfs en hm2 _ hsp
        rw [globMatch_raw_raw] at hc
        cases hc
    have hw : fsWrite (rest.foldl (fun fs e =>
        fsWrite fs (childPath dir (rawSlideName e.2)) ⟨.bin (env.ppmContent k e.1), 0⟩) fs)
        (childPath dir (rawSlideName e.2)) ⟨.bin (env.ppmContent k e.1), 0⟩
        = (childPath dir (rawSlideName e.2), (⟨.bin (env.ppmContent k e.1), 0⟩ : FNode))
          :: rest.foldl (fun fs e =>
            fsWrite fs (childPath dir (rawSlideName e.2))
              ⟨.bin (env.ppmContent k e.1), 0⟩) fs := by
      unfold fsWrite fsRemove fsFilterP
      rw [List.filter_eq_self.mpr (fun en hen => by
        simpa using hfresh en hen)]
    rw [hw]
    have hde : dirEntries ((childPath dir (rawSlideName e.2),
        (⟨.bin (env.ppmContent k e.1), 0⟩ : FNode)) :: rest.foldl (fun fs e =>
          fsWrite fs (childPath dir (rawSlideName e.2))
            ⟨.bin (env.ppmContent k e.1), 0⟩) fs) dir
        = ⟨rawSlideName e.2, ⟨.bin (env.ppmContent k e.1), 0⟩⟩
          :: dirEntries (rest.foldl (fun fs e =>
            fsWrite fs (childPath dir (rawSlideName e.2))
              ⟨.bin (env.ppmContent k e.1), 0⟩) fs) dir := by
      unfold dirEntries
      rw [List.filterMap_cons]
      simp only [splitPath_childPath _ _ (slashFree_rawSlideName hsfe)]
      rw [if_pos trivial]
    unfold globDir
    rw [hde, List.filter_cons_of_pos (by simpa using globMatch_raw_raw e.2)]
    unfold globDir at hX
    rw [hX]
    rw [List.reverse_append, List.reverse_singleton, List.singleton_append, List.map_cons]

/-! ## The rename loop of `render_to_pngs` -/

theorem renameSlides_other (fmtDir : String) :
    ∀ (ps : List String) (idx : Nat) (fs : FS) (q : String),
      (∀ p ∈ ps, q ≠ p) →
      (∀ i, idx ≤ i → i < idx + ps.length → q ≠ childPath fmtDir (slideName i)) →
      fsGet (renameSlides fmtDir fs ps idx) q = fsGet fs q
  | [], _, _, _, _, _ => rfl
  | p :: rest, idx, fs, q, hs, ht => by
    show fsGet (renameSlides fmtDir
      (fsMove fs p (childPath fmtDir (slideName idx))) rest (idx + 1)) q = fsGet fs q
    rw [renameSlides_other fmtDir rest (idx + 1) _ q
      (fun x hx => hs x (List.mem_cons_of_mem _ hx))
      (fun i h1 h2 => ht i (by omega) (by simp only [List.length_cons]; omega))]
    exact fsGet_fsMove_other _ _ _ _ (hs p (List.mem_cons_self _ _))
      (ht idx (le_refl _) (by simp only [List.length_cons]; omega))

theorem renameSlides_get (fmtDir : String) :
    ∀ (ps : List String) (idx : Nat) (fs : FS) (j : Nat) (hj : j < ps.length),
      ps.Nodup →
      (∀ p ∈ ps, ∀ i, p ≠ childPath fmtDir (slideName i)) →
      (∀ p ∈ ps, (fsGet fs p).isSome = true) →
      fsGet (renameSlides fmtDir fs ps idx) (childPath fmtDir (slideName (idx + j)))
        = fsGet fs (ps.get ⟨j, hj⟩)
  | [], _, _, j, hj, _, _, _ => absurd hj (by simp)
  | a :: rest, idx, fs, 0, _, hnd, ht, hpres => by
    show fsGet (renameSlides fmtDir
      (fsMove fs a (childPath fmtDir (slideName idx))) rest (idx + 1))
      (childPath fmtDir (slideName (idx + 0))) = fsGet fs a
    rw [show idx + 0 = idx from rfl]
    rw [renameSlides_other fmtDir rest (idx + 1) _ _
      (fun x hx he => ht x (List.mem_cons_of_mem _ hx) idx he.symm)
      (fun i h1 h2 he => by
        have : idx = i := slideName_inj (childPath_right_inj he)
        omega)]
    obtain ⟨d, hd⟩ := Option.isSome_iff_exists.mp (hpres a (List.mem_cons_self _ _))
    rw [fsGet_fsMove_dst hd, hd]
  | a :: rest, idx, fs, j + 1, hj, hnd, ht, hpres => by
    show fsGet (renameSlides fmtDir
      (fsMove fs a (childPath fmtDir (slideName idx))) rest (idx + 1))
      (childPath fmtDir (slideName (idx + (j + 1))))
      = fsGet fs (rest.get ⟨j, Nat.lt_of_succ_lt_succ hj⟩)
    rw [show idx + (j + 1) = (idx + 1) + j from by omega]
    rw [renameSlides_get fmtDir rest (idx + 1) _ j (Nat.lt_of_succ_lt_succ hj)
      (List.nodup_cons.mp hnd).2
      (fun x hx => ht x (List.mem_cons_of_mem _ hx))
      (fun x hx => by
        rw [fsGet_fsMove_other _ _ _ _
          (fun he => (List.nodup_cons.mp hnd).1 (by rw [← he]; exact hx))
          (ht x (List.mem_cons_of_mem _ hx) idx)]
        exact hpres x (List.mem_cons_of_mem _ hx))]
    exact fsGet_fsMove_other _ _ _ _
      (fun he => (List.nodup_cons.mp hnd).1
        (by rw [← he]; exact List.get_mem rest j (Nat.lt_of_succ_lt_succ hj)))
      (ht _ (List.mem_cons_of_mem _ (List.get_mem rest j (Nat.lt_of_succ_lt_succ hj))) idx)

theorem fsExists_renameSlides (fmtDir : String) :
    ∀ (ps : List String) (idx : Nat) (fs : FS) (q : String),
      (fsGet (renameSlides fmtDir fs ps idx) q).isSome = true →
      (fsGet fs q).isSome = true
        ∨ ∃ j, idx ≤ j ∧ j < idx + ps.length ∧ q = childPath fmtDir (slideName j)
  | [], _, _, _, h => Or.inl h
  | p :: rest, idx, fs, q, h => by
    rcases fsExists_renameSlides fmtDir rest (idx + 1) _ q h with h2 | ⟨j, hj1, hj2, hq⟩
    · rcases fsGet_fsMove_isSome h2 with rfl | h3
      · exact Or.inr ⟨idx, le_refl _, by simp only [List.length_cons]; omega, rfl⟩
      · exact Or.inl h3
    · exact Or.inr ⟨j, by omega, by simp only [List.length_cons]; omega, hq⟩

/-! ## The resolved `soffice` output is a file of the output directory -/

theorem sofficeResolve_mem {inputPath outExt : String} {entries : List DirEntry}
    {e : DirEntry} (h : sofficeResolve inputPath outExt entries = some e) :
    e ∈ entries := by
  cases hc : entries.filter
      (fun x => globMatch (splitextRoot (pyBasename inputPath) ++ "." ++ outExt) x.name) with
  | cons c rest =>
    rw [sofficeResolve_exact hc] at h
    simp only [Option.some.injEq] at h
    subst h
    have hce : c ∈ entries.filter
        (fun x => globMatch (splitextRoot (pyBasename inputPath) ++ "." ++ outExt) x.name) := by
      rw [hc]
      exact List.mem_cons_self _ _
    exact (List.mem_filter.mp hce).1
  | nil =>
    cases hc2 : stableSort mtimeDesc
        (entries.filter (fun x => globMatch ("*." ++ outExt) x.name)) with
    | nil =>
      rw [sofficeResolve_none hc hc2] at h
      cases h
    | cons c rest =>
      rw [sofficeResolve_fallback hc hc2] at h
      simp only [Option.some.injEq] at h
      subst h
      have hce : c ∈ stableSort mtimeDesc
          (entries.filter (fun x => globMatch ("*." ++ outExt) x.name)) := by
        rw [hc2]
        exact List.mem_cons_self _ _
      exact (List.mem_filter.mp (mem_stableSort.mp hce)).1

theorem doConvert_ok_out {env : Env} {st : St} {inputPath outdir outExt : String}
    {st' : St} {q : String}
    (h : doConvert env st inputPath outdir outExt = .ok (st', q)) :
    ∃ nm, q = childPath outdir nm ∧ slashFree nm = true
      ∧ (fsGet st'.fs q).isSome = true := by
  have hshape := doConvert_ok_shape h
  simp only [doConvert] at h
  split at h
  · rename_i p hsc
    simp only [Except.ok.injEq, Prod.mk.injEq] at h
    unfold sofficeConvert at hsc
    split at hsc
    · cases hsc
    · cases hres : sofficeResolve inputPath outExt (dirEntries ((env.convCreated st.convCount).foldl
          (fun fs e => fsWrite fs (childPath outdir e.1) e.2) st.fs) outdir) with
      | none =>
        rw [hres] at hsc
        cases hsc
      | some en =>
        rw [hres] at hsc
        simp only [Except.ok.injEq] at hsc
        obtain ⟨en2, hmem2, hsp2, _⟩ := mem_dirEntries.mp (sofficeResolve_mem hres)
        obtain ⟨hpath, hsfn⟩ := splitPath_eq_some hsp2
        refine ⟨en.name, ?_, hsfn, ?_⟩
        · rw [← h.2, ← hsc]
        · have hm := fsGet_isSome_of_mem hmem2
          rw [hpath] at hm
          rw [← h.2, ← hsc, hshape]
          exact hm
  · cases h

set_option maxHeartbeats 1000000 in
/-- C4: `render_to_pngs` on a document whose rasterization yields `n` pages (the
`pdftoppm` oracle's page suffixes: distinct single-component names of one common width,
as `pdftoppm` pads page numbers to a fixed width) first deletes every normalized
`slide-*.png` from the variant directory; afterwards the variant directory holds the
images `slide-001.png` through `slide-<n>.png` — a contiguous 1-indexed zero-padded
sequence, the `(j+1)`-st holding the page whose suffix is `(j+1)`-st in lexicographic
order — and nothing else matching `slide-*.png`, plus `slides.pdf`, with no
`__raw_slide-*.png` temporary remaining. -/
theorem render_to_pngs_normalized_sequence
    (env : Env) (st : St) (inPath fmtDir tmp : String) (st2 : St)
    (hrun : renderToPngs env st inPath fmtDir tmp = .ok st2)
    (hnd : (env.ppmSuffixes st.ppmCount).Nodup)
    (hsf : ∀ s ∈ env.ppmSuffixes st.ppmCount, slashFree s = true)
    (hlen : ∀ s1 ∈ env.ppmSuffixes st.ppmCount, ∀ s2 ∈ env.ppmSuffixes st.ppmCount,
      s1.toList.length = s2.toList.length)
    (hcr : ∀ e ∈ env.convCreated st.convCount, slashFree e.1 = true)
    (htm : tmp ≠ fmtDir) :
    (∀ nm, slashFree nm = true → globMatch "slide-*.png" nm = true →
      fsGet (fsRemoveGlob st.fs fmtDir "slide-*.png") (childPath fmtDir nm) = none) ∧
    (∀ j, j < (env.ppmSuffixes st.ppmCount).length → ∃ i,
      i < (env.ppmSuffixes st.ppmCount).length ∧
      (stableSort strLt (env.ppmSuffixes st.ppmCount)).getD j ""
        = (env.ppmSuffixes st.ppmCount).getD i "" ∧
      fsGet st2.fs (childPath fmtDir (slideName (j + 1)))
        = some ⟨.bin (env.ppmContent st.ppmCount i), 0⟩) ∧
    (∀ p d nm, splitPath p = some (fmtDir, nm) → globMatch "slide-*.png" nm = true →
      fsGet st2.fs p = some d →
      ∃ j, 1 ≤ j ∧ j ≤ (env.ppmSuffixes st.ppmCount).length ∧ nm = slideName j) ∧
    (fsGet st2.fs (childPath fmtDir "slides.pdf")).isSome = true ∧
    (∀ p nm, splitPath p = some (fmtDir, nm) →
      globMatch "__raw_slide-*.png" nm = true → fsGet st2.fs p = none) := by
  simp only [renderToPngs, bind, Except.bind] at hrun
  split at hrun
  · cases hrun
  · rename_i a heq1
    obtain ⟨st1, pdfOut⟩ := a
    split at hrun
    · cases hrun
    · rename_i b heq2
      obtain ⟨st3, pngs'⟩ := b
      simp only [Except.ok.injEq] at hrun
      subst hrun
      obtain ⟨onm, ho1, hosf, ho3⟩ := doConvert_ok_out heq1
      have h1 := doConvert_ok_shape heq1
      subst h1
      obtain ⟨h2s, h2p⟩ := pdftoppmPng_ok_shape heq2
      subst h2s
      try dsimp only at h2p
      try dsimp only at ho3
      try dsimp only
      have hraw1 : ∀ s : String, "__raw_slide" ++ "-" ++ s ++ ".png" = rawSlideName s := by
        intro s
        rw [show "__raw_slide" ++ "-" = "__raw_slide-" from by decide]
        rfl
      have hraw2 : "__raw_slide" ++ "-*.png" = "__raw_slide-*.png" := by decide
      simp only [hraw1, hraw2] at h2p ⊢
      have hnd_snd : ((env.ppmSuffixes st.ppmCount).enum.map Prod.snd).Nodup := by
        rw [List.enum_map_snd]
        exact hnd
      have hsf_snd : ∀ e ∈ (env.ppmSuffixes st.ppmCount).enum, slashFree e.2 = true :=
        fun e he => hsf e.2 (snd_mem_of_mem_enum he)
      have hFSCprop : ∀ (Y : FS), ∀ en ∈ fsRemoveGlob Y fmtDir "__raw_slide-*.png",
          ∀ nm, splitPath en.1 = some (fmtDir, nm) →
            globMatch "__raw_slide-*.png" nm = false :=
        fun _ en hen nm hsp => mem_fsRemoveGlob_not_match hen hsp
      rw [ppm_fold_glob env st.ppmCount fmtDir _ hsf_snd hnd_snd _ (hFSCprop _)] at h2p
      simp only [List.map_map, Function.comp] at h2p
      try dsimp only at h2p
      have hperm : List.Perm (stableSort strLt (env.ppmSuffixes st.ppmCount))
          (env.ppmSuffixes st.ppmCount) := perm_stableSort _ _
      have hLnd : ((env.ppmSuffixes st.ppmCount).enum.reverse.map
          (fun e => childPath fmtDir (rawSlideName e.2))).Nodup := by
        rw [List.map_reverse, List.nodup_reverse]
        exact List.Nodup.map_on
          (fun x hx y hy hxy => List.inj_on_of_nodup_map hnd_snd hx hy
            (rawSlideName_inj (childPath_right_inj hxy)))
          (List.Nodup.of_map _ hnd_snd)
      have hpngs : pngs' = (stableSort strLt (env.ppmSuffixes st.ppmCount)).map
          (fun s => childPath fmtDir (rawSlideName s)) := by
        rw [h2p]
        apply sorted_nodup_eq (fun x y h => strLt_asymm h)
        · exact stableSort_strLt_pairwise hLnd
        · rw [List.pairwise_map]
          apply List.Pairwise.imp_of_mem ?_ (stableSort_strLt_pairwise hnd)
          intro a b ha hb hab
          exact strLt_childPath_raw fmtDir
            (hlen a (mem_stableSort.mp ha) b (mem_stableSort.mp hb)) hab
        · intro x
          rw [mem_stableSort, List.mem_map, List.mem_map]
          constructor
          · rintro ⟨e, he, rfl⟩
            exact ⟨e.2, mem_stableSort.mpr (snd_mem_of_mem_enum (List.mem_reverse.mp he)),
              rfl⟩
          · rintro ⟨s, hs, rfl⟩
            obtain ⟨i, hi, hg⟩ := List.mem_iff_getElem.mp (mem_stableSort.mp hs)
            refine ⟨(i, s), List.mem_reverse.mpr ?_, rfl⟩
            have h0 := mem_enum_getD hi
            rw [List.getD_eq_getElem _ _ hi, hg] at h0
            exact h0
      subst hpngs
      have hginj : Function.Injective (fun s => childPath fmtDir (rawSlideName s)) :=
        fun s t h => rawSlideName_inj (childPath_right_inj h)
      have hndp : ((stableSort strLt (env.ppmSuffixes st.ppmCount)).map
          (fun s => childPath fmtDir (rawSlideName s))).Nodup :=
        (hperm.nodup_iff.mpr hnd).map hginj
      have hsrc_t : ∀ p ∈ (stableSort strLt (env.ppmSuffixes st.ppmCount)).map
          (fun s => childPath fmtDir (rawSlideName s)),
          ∀ i, p ≠ childPath fmtDir (slideName i) := by
        intro p hp i
        obtain ⟨s, _, rfl⟩ := List.mem_map.mp hp
        intro he
        exact rawSlideName_ne_slideName s i (childPath_right_inj he)
      have hpres : ∀ fsx : FS, ∀ p ∈ (stableSort strLt (env.ppmSuffixes st.ppmCount)).map
          (fun s => childPath fmtDir (rawSlideName s)),
          (fsGet ((env.ppmSuffixes st.ppmCount).enum.foldl
            (fun fs e => fsWrite fs (childPath fmtDir (rawSlideName e.2))
              ⟨.bin (env.ppmContent st.ppmCount e.1), 0⟩) fsx) p).isSome = true := by
        intro fsx p hp
        obtain ⟨s, hs, rfl⟩ := List.mem_map.mp hp
        obtain ⟨i, hi, hg⟩ := List.mem_iff_getElem.mp (mem_stableSort.mp hs)
        have h0 := mem_enum_getD hi
        rw [List.getD_eq_getElem _ _ hi, hg] at h0
        rw [fsGet_ppm_fold_mem env st.ppmCount fmtDir _ i s h0 hnd_snd fsx]
        rfl
      refine ⟨?_, ?_, ?_, ?_, ?_⟩
      · -- (a) stale normalized pages are removed up front
        intro nm hsfnm hm
        rw [fsGet_fsRemoveGlob_split _ _ _ _ _ _ (splitPath_childPath fmtDir nm hsfnm)]
        rw [if_pos ⟨rfl, hm⟩]
      · -- (b) the normalized sequence in sorted-suffix order
        intro j hj
        have hjs : j < (stableSort strLt (env.ppmSuffixes st.ppmCount)).length := by
          rw [hperm.length_eq]
          exact hj
        obtain ⟨i, hi, hg2⟩ := List.mem_iff_getElem.mp
          (mem_stableSort.mp (List.getElem_mem hjs))
        refine ⟨i, hi, ?_, ?_⟩
        · rw [List.getD_eq_getElem _ _ hjs, List.getD_eq_getElem _ _ hi]
          exact hg2.symm
        · have h0 := mem_enum_getD hi
          rw [List.getD_eq_getElem _ _ hi, hg2] at h0
          rw [fsGet_fsRemoveGlob_split _ _ _ _ _ _
            (splitPath_childPath fmtDir (slideName (j + 1)) (slashFree_slideName _))]
          rw [if_neg (by
            rintro ⟨h1x, h2x⟩
            rw [globMatch_raw_slide] at h2x
            cases h2x)]
          have hjl : j < ((stableSort strLt (env.ppmSuffixes st.ppmCount)).map
              (fun s => childPath fmtDir (rawSlideName s))).length := by
            rw [List.length_map]
            exact hjs
          rw [show j + 1 = 1 + j from Nat.add_comm j 1]
          rw [renameSlides_get fmtDir
            ((stableSort strLt (env.ppmSuffixes st.ppmCount)).map
              (fun s => childPath fmtDir (rawSlideName s))) 1 _ j hjl
            hndp hsrc_t (hpres _)]
          rw [show ((stableSort strLt (env.ppmSuffixes st.ppmCount)).map
              (fun s => childPath fmtDir (rawSlideName s))).get ⟨j, hjl⟩
            = childPath fmtDir (rawSlideName ((stableSort strLt
                (env.ppmSuffixes st.ppmCount)).get ⟨j, hjs⟩)) from by
            rw [List.get_eq_getElem, List.get_eq_getElem]
            exact List.getElem_map _]
          exact fsGet_ppm_fold_mem env st.ppmCount fmtDir _ i _ h0 hnd_snd _
      · -- (c) nothing else in the directory matches slide-*.png
        intro p d nm hsp hmatch hget
        rw [fsGet_fsRemoveGlob_split _ _ _ _ _ _ hsp] at hget
        by_cases hr : globMatch "__raw_slide-*.png" nm = true
        · rw [if_pos ⟨rfl, hr⟩] at hget
          cases hget
        · rw [if_neg (by rintro ⟨h1x, h2x⟩; exact hr h2x)] at hget
          rcases fsExists_renameSlides fmtDir _ 1 _ p (by rw [hget]; rfl)
            with hwfs | ⟨j, hj1, hj2, rfl⟩
          · exfalso
            rcases fsGet_ppm_fold_cases env st.ppmCount fmtDir _ _ p hwfs
              with ⟨e, he, rfl⟩ | hfsc2
            · rw [splitPath_childPath _ _ (slashFree_rawSlideName (hsf_snd e he))] at hsp
              simp only [Option.some.injEq, Prod.mk.injEq] at hsp
              rw [← hsp.2] at hmatch
              rw [globMatch_slide_raw] at hmatch
              cases hmatch
            · rw [fsGet_fsRemoveGlob_split _ _ _ _ _ _ hsp] at hfsc2
              rw [if_neg (by rintro ⟨h1x, h2x⟩; exact hr h2x)] at hfsc2
              rcases fsGet_fsMove_isSome hfsc2 with rfl | hfsb
              · rw [splitPath_childPath _ _ (by decide)] at hsp
                simp only [Option.some.injEq, Prod.mk.injEq] at hsp
                rw [← hsp.2] at hmatch
                rw [globMatch_slide_slides] at hmatch
                cases hmatch
              · have hfs1 : (fsGet ((env.convCreated st.convCount).foldl
                    (fun fs e => fsWrite fs (childPath tmp e.1) e.2)
                    (fsRemoveGlob st.fs fmtDir "slide-*.png")) p).isSome = true := by
                  by_cases hex : fsExists ((env.convCreated st.convCount).foldl
                      (fun fs e => fsWrite fs (childPath tmp e.1) e.2)
                      (fsRemoveGlob st.fs fmtDir "slide-*.png"))
                      (childPath fmtDir "slides.pdf") = true
                  · rw [if_pos hex, fsGet_fsRemove] at hfsb
                    by_cases hpt : p = childPath fmtDir "slides.pdf"
                    · rw [if_pos hpt] at hfsb
                      cases hfsb
                    · rw [if_neg hpt] at hfsb
                      exact hfsb
                  · rw [if_neg hex] at hfsb
                    exact hfsb
                rcases fsGet_writeAll_cases hfs1 with ⟨e, he, rfl⟩ | hfs0a
                · rw [splitPath_childPath _ _ (hcr e he)] at hsp
                  simp only [Option.some.injEq, Prod.mk.injEq] at hsp
                  exact htm hsp.1
                · rw [fsGet_fsRemoveGlob_split _ _ _ _ _ _ hsp,
                    if_pos ⟨rfl, hmatch⟩] at hfs0a
                  cases hfs0a
          · refine ⟨j, hj1, ?_, ?_⟩
            · rw [List.length_map, hperm.length_eq] at hj2
              omega
            · rw [splitPath_childPath _ _ (slashFree_slideName j)] at hsp
              simp only [Option.some.injEq, Prod.mk.injEq] at hsp
              exact hsp.2.symm
      · -- (d) slides.pdf is present
        have hne_pt : pdfOut ≠ childPath fmtDir "slides.pdf" := by
          rw [ho1]
          intro he
          exact htm ((childPath_inj hosf (by decide)).mp he).1
        obtain ⟨dv, hdv⟩ := Option.isSome_iff_exists.mp ho3
        rw [fsGet_fsRemoveGlob_split _ _ _ _ _ _
          (splitPath_childPath fmtDir "slides.pdf" (by decide))]
        rw [if_neg (by
          rintro ⟨h1x, h2x⟩
          rw [globMatch_raw_slides] at h2x
          cases h2x)]
        rw [renameSlides_other fmtDir
          ((stableSort strLt (env.ppmSuffixes st.ppmCount)).map
            (fun s => childPath fmtDir (rawSlideName s))) 1 _ _
          (fun x hx => by
            obtain ⟨s, _, rfl⟩ := List.mem_map.mp hx
            exact fun heq => rawSlideName_ne_slides s (childPath_right_inj heq).symm)
          (fun i h1x h2x heq => slideName_ne_slides i (childPath_right_inj heq).symm)]
        rw [fsGet_ppm_fold_other env st.ppmCount fmtDir _ _
          (childPath fmtDir "slides.pdf")
          (fun e he heq => rawSlideName_ne_slides e.2 (childPath_right_inj heq).symm)]
        rw [fsGet_fsRemoveGlob_split _ _ _ _ _ _
          (splitPath_childPath fmtDir "slides.pdf" (by decide))]
        rw [if_neg (by
          rintro ⟨h1x, h2x⟩
          rw [globMatch_raw_slides] at h2x
          cases h2x)]
        split
        · rw [fsGet_fsMove_dst (show fsGet (fsRemove _ _) pdfOut = some dv from by
            rw [fsGet_fsRemove, if_neg hne_pt]
            exact hdv)]
          rfl
        · rw [fsGet_fsMove_dst hdv]
          rfl
      · -- (e) no raw temporaries remain
        intro p nm hsp hm
        rw [fsGet_fsRemoveGlob_split _ _ _ _ _ _ hsp, if_pos ⟨rfl, hm⟩]

set_option maxRecDepth 100000 in
set_option maxHeartbeats 1000000 in
/-- Witness for C4: a concrete two-page rasterization over `envC4` from a state holding
a stale `slide-777.png`. -/
theorem render_to_pngs_normalized_sequence_witness :
    ∃ st2, renderToPngs envC4 stC4 "in.ppt" "fmt" "tmp" = Except.ok st2 ∧
      (fsGet st2.fs (childPath "fmt" "slides.pdf")).isSome = true ∧
      (∃ i, i < (envC4.ppmSuffixes stC4.ppmCount).length ∧
        (stableSort strLt (envC4.ppmSuffixes stC4.ppmCount)).getD 0 ""
          = (envC4.ppmSuffixes stC4.ppmCount).getD i "" ∧
        fsGet st2.fs (childPath "fmt" (slideName 1))
          = some ⟨.bin (envC4.ppmContent stC4.ppmCount i), 0⟩) := by
  cases hrun : renderToPngs envC4 stC4 "in.ppt" "fmt" "tmp" with
  | ok st' =>
    have h := render_to_pngs_normalized_sequence envC4 stC4 "in.ppt" "fmt" "tmp" st' hrun
      (by decide) (by decide) (by decide) (by decide) (by decide)
    refine ⟨st', rfl, h.2.2.2.1, ?_⟩
    have hb := h.2.1 0 (by decide)
    simpa using hb
  | error e =>
    exfalso
    have hok : (renderToPngs envC4 stC4 "in.ppt" "fmt" "tmp").isOk = true := by decide
    rw [hrun] at hok
    cases hok

end WebPptx
